import Mathlib

/-!
# valentinessh26: the terminal interaction engine of `main.go`

A shallow embedding of the line editor (`readLineWithEcho`), the canvas
primitives, the typewriter effect, the heart animation and the session loop.

Conventions of the embedding

* A Go `string` is the list of its bytes (`List Nat`, each below 256); a
  `rune` is a natural number.  `string(r)` is `encodeRune r`, ranging over a
  string decodes it with `decodeRune`.
* The SSH channel together with the two other sources of effects the program
  uses (the clock and the global random source) is the record `World`:
  - `incoming` holds what the successive `Read` calls on the channel will
    deliver, one list of runes per call.  `bufio.Reader.ReadRune` takes its
    runes from the data of one `Read` until that is used up and only then
    reads again; UTF-8 decoding of the input is the library's and is not
    modelled, so the elements are runes;
  - `closeErr` is the error `Read` reports once `incoming` is used up;
  - `trace` records, in order, every write to the channel (one `write` per
    `Fprint`/`Write` call) and every `time.Sleep`;
  - `rand` are the raw values the random source will hand out;
    `rand.Intn n` is the next raw value modulo `n`.
* `log.Printf` writes to the process log, not to the channel, and is left out.
-/

namespace Valentine

/-! ## Effects -/

/-- The errors the program tells apart: `io.EOF` and everything else. -/
inductive GoError
  | eof
  | failure
  deriving DecidableEq, Repr

/-- One observable effect: bytes written to the channel, or a sleep of the
given number of nanoseconds. -/
inductive Event
  | write (bytes : List Nat)
  | sleep (ns : Int)
  deriving DecidableEq, Repr

/-- The channel, the clock and the random source. -/
structure World where
  incoming : List (List Nat)
  closeErr : GoError
  trace : List Event
  rand : List Nat
  deriving DecidableEq, Repr

/-- The bytes written to the channel, in order, sleeps dropped. -/
def writtenBytes : List Event → List Nat
  | [] => []
  | Event.write bs :: es => bs ++ writtenBytes es
  | Event.sleep _ :: es => writtenBytes es

/-- `fmt.Fprint(channel, s)` and `rw.Write(s)`: one write of the bytes `s`. -/
def World.emit (w : World) (bytes : List Nat) : World :=
  { w with trace := w.trace ++ [Event.write bytes] }

/-- `time.Sleep(d)` with `d` in nanoseconds. -/
def World.pause (w : World) (ns : Int) : World :=
  { w with trace := w.trace ++ [Event.sleep ns] }

/-- `rand.Intn(n)`: the next raw value of the random source modulo `n`
(zero once the list of raw values is used up). -/
def World.intn (w : World) (n : Nat) : Nat × World :=
  match w.rand with
  | [] => (0, w)
  | r :: rs => (r % n, { w with rand := rs })

/-! ## UTF-8 -/

/-- `utf8.RuneError`, U+FFFD. -/
def RuneError : Nat := 0xFFFD

/-- `string(r)` for a rune `r` (`utf8.AppendRune`): one to four bytes; a
surrogate or a value above U+10FFFF is encoded as `RuneError`. -/
def encodeRune (r : Nat) : List Nat :=
  if r < 0x80 then [r]
  else if r ≤ 0x7FF then [0xC0 + r / 64, 0x80 + r % 64]
  else if 0x10FFFF < r ∨ (0xD800 ≤ r ∧ r ≤ 0xDFFF) then [0xEF, 0xBF, 0xBD]
  else if r ≤ 0xFFFF then [0xE0 + r / 4096, 0x80 + r / 64 % 64, 0x80 + r % 64]
  else [0xF0 + r / 262144, 0x80 + r / 4096 % 64, 0x80 + r / 64 % 64, 0x80 + r % 64]

/-- `string(rs)` for a rune slice `rs`. -/
def stringOfRunes (rs : List Nat) : List Nat :=
  (rs.map encodeRune).flatten

/-- A Unicode scalar value: what `ReadRune` and ranging over a string yield
for well-formed input. -/
def validRune (r : Nat) : Prop := r ≤ 0x10FFFF ∧ ¬ (0xD800 ≤ r ∧ r ≤ 0xDFFF)

/-- The rune that `string(r)` holds: `r` itself when it is a scalar value,
`RuneError` otherwise. -/
def fixRune (r : Nat) : Nat :=
  if r ≤ 0x10FFFF ∧ ¬ (0xD800 ≤ r ∧ r ≤ 0xDFFF) then r else RuneError

/-- A continuation byte, `0x80..0xBF`. -/
def isCont (b : Nat) : Bool := 0x80 ≤ b && b ≤ 0xBF

/-- `utf8.DecodeRuneInString`: the first rune of a non-empty byte string and
the number of bytes it takes; an invalid or truncated sequence decodes to
`RuneError` of width one.  The empty string gives `(RuneError, 0)`. -/
def decodeRune : List Nat → Nat × Nat
  | [] => (RuneError, 0)
  | b0 :: rest =>
    if b0 < 0x80 then (b0, 1)
    else if b0 < 0xC2 then (RuneError, 1)
    else if b0 ≤ 0xDF then
      match rest with
      | b1 :: _ => if isCont b1 then ((b0 % 32) * 64 + b1 % 64, 2) else (RuneError, 1)
      | _ => (RuneError, 1)
    else if b0 ≤ 0xEF then
      match rest with
      | b1 :: b2 :: _ =>
        let lo := if b0 = 0xE0 then 0xA0 else 0x80
        let hi := if b0 = 0xED then 0x9F else 0xBF
        if lo ≤ b1 ∧ b1 ≤ hi ∧ isCont b2 then
          ((b0 % 16) * 4096 + (b1 % 64) * 64 + b2 % 64, 3)
        else (RuneError, 1)
      | _ => (RuneError, 1)
    else if b0 ≤ 0xF4 then
      match rest with
      | b1 :: b2 :: b3 :: _ =>
        let lo := if b0 = 0xF0 then 0x90 else 0x80
        let hi := if b0 = 0xF4 then 0x8F else 0xBF
        if lo ≤ b1 ∧ b1 ≤ hi ∧ isCont b2 ∧ isCont b3 then
          ((b0 % 8) * 262144 + (b1 % 64) * 4096 + (b2 % 64) * 64 + b3 % 64, 4)
        else (RuneError, 1)
      | _ => (RuneError, 1)
    else (RuneError, 1)

/-- The iterations of `for idx, r := range text`: the pairs `(idx, r)` of byte
offset and rune, starting at byte offset `idx` with `bytes` still to read.
Every iteration takes at least one byte, so `fuel = bytes.length` is enough. -/
def rangeFrom : Nat → Nat → List Nat → List (Nat × Nat)
  | 0, _, _ => []
  | _ + 1, _, [] => []
  | fuel + 1, idx, b :: bs =>
    let d := decodeRune (b :: bs)
    (idx, d.1) :: rangeFrom fuel (idx + d.2) ((b :: bs).drop d.2)

/-- The pairs `(idx, r)` that `for idx, r := range text` goes through. -/
def rangeString (text : List Nat) : List (Nat × Nat) :=
  rangeFrom text.length 0 text

/-- `[]rune(s)`. -/
def runesOf (s : List Nat) : List Nat :=
  (rangeString s).map Prod.snd

/-- A Go string literal as bytes. -/
def lit (s : String) : List Nat :=
  stringOfRunes (s.toList.map Char.toNat)

/-! ## Line editor -/

/-- `bufio.Reader.ReadRune` on a reader whose unread data is `buffered`, over a
channel that will deliver `chunks`: the next rune (none when the channel has
nothing more to give), the reader's unread data and the channel's remaining
deliveries afterwards. -/
def readRune : List Nat → List (List Nat) → Option Nat × List Nat × List (List Nat)
  | r :: rest, chunks => (some r, rest, chunks)
  | [], [] => (none, [], [])
  | [], c :: chunks => readRune c chunks

/-- How one pass through the body of the read loop ends. -/
inductive Flow
  | next (buf : List Nat) (w : World)
  | brk (buf : List Nat) (w : World)
  | ret (line : List Nat) (err : GoError) (w : World)
  deriving DecidableEq, Repr

/-- The body of the loop of `readLineWithEcho` after a rune `r` was read
(lines 420 to 447): `buf` is the line so far. -/
def onRune (r : Nat) (buf : List Nat) (w : World) : Flow :=
  if r = 13 ∨ r = 10 then Flow.brk buf w
  else if r = 127 then
    if buf.length > 0 then Flow.next buf.dropLast (w.emit [8, 32, 8])
    else Flow.next buf w
  else if r = 3 ∨ r = 4 ∨ r = 24 then Flow.ret [] GoError.eof w
  else if r ≥ 32 ∧ r ≠ 127 then Flow.next (buf ++ [r]) (w.emit (encodeRune r))
  else Flow.next buf w

/-- What `readLineWithEcho` returns, and the world it leaves. -/
structure LineResult where
  line : List Nat
  err : Option GoError
  world : World
  deriving DecidableEq, Repr

/-- The loop of `readLineWithEcho`: `buffered` is the unread data of the
`bufio.Reader`, `buf` the line so far.  Each pass reads one rune, so a `fuel`
above the number of runes still to come is never used up. -/
def readLineLoop : Nat → List Nat → List Nat → World → LineResult
  | 0, _, _, w => ⟨[], some GoError.failure, w⟩
  | fuel + 1, buffered, buf, w =>
    match readRune buffered w.incoming with
    | (none, _, chunks) => ⟨[], some w.closeErr, { w with incoming := chunks }⟩
    | (some r, buffered', chunks) =>
      match onRune r buf { w with incoming := chunks } with
      | Flow.next buf' w' => readLineLoop fuel buffered' buf' w'
      | Flow.brk buf' w' => ⟨stringOfRunes buf', none, w'⟩
      | Flow.ret line err w' => ⟨line, some err, w'⟩

/-- `readLineWithEcho(rw)`: a fresh `bufio.Reader` (nothing buffered), an empty
line buffer.  What the reader has taken from the channel and not handed out
when the function returns is gone with the reader. -/
def readLineWithEcho (w : World) : LineResult :=
  readLineLoop (w.incoming.flatten.length + 1) [] [] w

/-! ## Canvas -/

/-- Decimal digits of `n`, most significant first; `fuel` above the number of
digits is never used up. -/
def decimalAux : Nat → Nat → List Nat → List Nat
  | 0, _, acc => acc
  | fuel + 1, n, acc =>
    if n < 10 then (48 + n) :: acc
    else decimalAux fuel (n / 10) ((48 + n % 10) :: acc)

/-- The verb `%d` of `fmt` on a Go `int`. -/
def fmtInt : Int → List Nat
  | Int.ofNat n => decimalAux (n + 1) n []
  | Int.negSucc n => 45 :: decimalAux (n + 2) (n + 1) []

/-- `clearScreen(channel)`. -/
def clearScreen (w : World) : World :=
  w.emit (lit "\x1b[2J\x1b[H")

/-- `clearLine(channel)`. -/
def clearLine (w : World) : World :=
  w.emit (lit "\x1b[2K\r")

/-- `moveCursorRel(channel, x, y)`. -/
def moveCursorRel (w : World) (x y : Int) : World :=
  let w1 :=
    if y > 0 then w.emit (lit "\x1b[" ++ fmtInt y ++ lit "B")
    else if y < 0 then w.emit (lit "\x1b[" ++ fmtInt (-y) ++ lit "A")
    else w
  if x > 0 then w1.emit (lit "\x1b[" ++ fmtInt x ++ lit "C")
  else if x < 0 then w1.emit (lit "\x1b[" ++ fmtInt (-x) ++ lit "D")
  else w1

/-- `moveCursorAbs(channel, x, y)`. -/
def moveCursorAbs (w : World) (x y : Int) : World :=
  w.emit (lit "\x1b[" ++ fmtInt (y + 1) ++ lit ";" ++ fmtInt (x + 1) ++ lit "H")

/-- One pass of the loop of `clearLinesRel` with loop variable `i`. -/
def clearLinesStep (n : Int) (w : World) (i : Nat) : World :=
  let w1 := clearLine w
  if (i : Int) < n - 1 then moveCursorRel w1 0 1 else w1

/-- `clearLinesRel(channel, n)`: the loop runs for `i = 0, ..., n - 1`. -/
def clearLinesRel (w : World) (n : Int) : World :=
  moveCursorRel ((List.range n.toNat).foldl (clearLinesStep n) w) 0 (-(n - 1))

/-- `strings.ReplaceAll(s, old, new)` for a non-empty `old`: the occurrences of
`old` are found left to right without overlap; `skip` bytes of a found
occurrence are still to be passed over. -/
def replaceFrom (old new : List Nat) : Nat → List Nat → List Nat
  | _, [] => []
  | skip + 1, _ :: cs => replaceFrom old new skip cs
  | 0, c :: cs =>
    if old.isPrefixOf (c :: cs) then new ++ replaceFrom old new (old.length - 1) cs
    else c :: replaceFrom old new 0 cs

/-- `strings.ReplaceAll(s, old, new)` for a non-empty `old`. -/
def ReplaceAll (s old new : List Nat) : List Nat :=
  replaceFrom old new 0 s

/-- `printMulti(channel, text)`. -/
def printMulti (w : World) (text : List Nat) : World :=
  w.emit (ReplaceAll text (lit "\n") (lit "\r\n"))

/-- `printNewLines(channel, n)`. -/
def printNewLines (w : World) (n : Nat) : World :=
  w.emit (List.replicate n (lit "\r\n")).flatten

/-! ## Typewriter effect -/

/-- One millisecond, in nanoseconds. -/
def Millisecond : Int := 1000000

/-- The body of the loop of `typewriterEffect` for the iteration `(idx, r)`;
`len` is `len(text)`. -/
def typewriterStep (len : Nat) (delay : Int) (w : World) (p : Nat × Nat) : World :=
  let idx := p.1
  let r := p.2
  let doUnderline : Bool := decide (r ≥ 32 ∧ r ≤ 126 ∧ (idx : Int) < (len : Int) - 1)
  let doSleep : Bool :=
    decide (delay > 0 ∧ (idx : Int) < (len : Int) - 1 ∧ r ≠ 13 ∧ r ≠ 10 ∧ r ≠ 32)
  let w1 := w.emit (encodeRune r)
  let w2 := if doUnderline then w1.emit (lit "_") else w1
  let w3 :=
    if doSleep then (w2.intn 100).2.pause (delay + ((w2.intn 100).1 : Int) * Millisecond)
    else w2
  if doUnderline then w3.emit (lit "\x08 \x08") else w3

/-- `typewriterEffect(channel, text, delay)`. -/
def typewriterEffect (w : World) (text : List Nat) (delay : Int) : World :=
  (rangeString text).foldl (typewriterStep text.length delay) w

/-! ## Heart animation -/

/-- The rune of the pink heart, U+1FA77. -/
def pinkHeart : Nat := 0x1FA77

/-- The rune of the blue heart, U+1F499. -/
def blueHeart : Nat := 0x1F499

/-- `strings.Trim(s, "\n")`. -/
def trimNewlines (s : List Nat) : List Nat :=
  ((s.dropWhile (fun b => b == 10)).reverse.dropWhile (fun b => b == 10)).reverse

/-- `strings.Split(s, "\n")`. -/
def splitLines : List Nat → List (List Nat)
  | [] => [[]]
  | b :: bs =>
    if b = 10 then [] :: splitLines bs
    else
      match splitLines bs with
      | l :: ls => (b :: l) :: ls
      | [] => [[b]]

/-- The lines of an art template: `strings.Split(strings.Trim(t, "\n"), "\n")`. -/
def templateLines (template : List Nat) : List (List Nat) :=
  splitLines (trimNewlines template)

/-- The width `w` of the template: the largest rune count of a line. -/
def gridWidth (lines : List (List Nat)) : Nat :=
  lines.foldl (fun w ln => if (runesOf ln).length > w then (runesOf ln).length else w) 0

/-- One row of the grid: the runes of the line, padded with spaces to `w`. -/
def padRow (w : Nat) (ln : List Nat) : List Nat :=
  if (runesOf ln).length < w then
    runesOf ln ++ List.replicate (w - (runesOf ln).length) 32
  else runesOf ln

/-- The rune grid built from the lines of the template. -/
def buildGrid (lines : List (List Nat)) : List (List Nat) :=
  lines.map (padRow (gridWidth lines))

/-- The access `grid[y][x]`. -/
def cellAt (grid : List (List Nat)) (y x : Nat) : Nat :=
  (grid.getD y []).getD x 0

/-- The two nested loops that build one frame: `paint y x orig` is what is
written for the cell at row `y`, column `x` holding `orig`. -/
def renderFrame (paint : Nat → Nat → Nat → List Nat) (grid : List (List Nat))
    (h w : Nat) : List Nat :=
  (List.range h).foldl
    (fun b y =>
      let row := (List.range w).foldl (fun b x => b ++ paint y x (cellAt grid y x)) b
      if (y : Int) < (h : Int) - 1 then row ++ lit "\r\n" else row)
    []

/-- A cell in a frame of the forward pass at `step`. -/
def paintForward (step y x orig : Nat) : List Nat :=
  if y + x ≤ step ∧ orig = pinkHeart then encodeRune blueHeart else encodeRune orig

/-- A cell in the fully replaced frame. -/
def paintFinal (_y _x orig : Nat) : List Nat :=
  if orig = pinkHeart then encodeRune blueHeart else encodeRune orig

/-- A cell in a frame of the fade pass at `step`. -/
def paintFade (step y x orig : Nat) : List Nat :=
  if y + x ≤ step ∧ orig = pinkHeart then encodeRune pinkHeart
  else if orig = pinkHeart then encodeRune blueHeart
  else encodeRune orig

/-- One pass of a frame loop: place the cursor, write the frame, sleep. -/
def frameStep (paint : Nat → Nat → Nat → Nat → List Nat) (grid : List (List Nat))
    (h wd : Nat) (offsetX offsetY : Int) (w : World) (step : Nat) : World :=
  ((moveCursorAbs w offsetX offsetY).emit (renderFrame (paint step) grid h wd)).pause
    (80 * Millisecond)

/-- The events of one pass of a frame loop at `step`: the cursor placement, the
frame, the sleep of 80 ms. -/
def frameEvents (paint : Nat → Nat → Nat → Nat → List Nat) (grid : List (List Nat))
    (h wd : Nat) (offsetX offsetY : Int) (step : Nat) : List Event :=
  [Event.write (lit "\x1b[" ++ fmtInt (offsetY + 1) ++ lit ";" ++ fmtInt (offsetX + 1) ++ lit "H"),
    Event.write (renderFrame (paint step) grid h wd), Event.sleep (80 * Millisecond)]

/-- `animateHearts(channel, offsetX, offsetY)` over the template
`heartASCIITransparent`. -/
def animateHearts (template : List Nat) (w : World) (offsetX offsetY : Int) : World :=
  let lines := templateLines template
  let h := lines.length
  let wd := gridWidth lines
  let grid := buildGrid lines
  let maxStep := h + wd
  let w1 :=
    (List.range 1).foldl
      (fun w _ =>
        (List.range (maxStep + 1)).foldl (frameStep paintForward grid h wd offsetX offsetY) w)
      w
  let w2 := (moveCursorAbs w1 offsetX offsetY).emit (renderFrame paintFinal grid h wd)
  let w3 := w2.pause (300 * Millisecond)
  (List.range (maxStep + 1)).foldl (frameStep paintFade grid h wd offsetX offsetY) w3

/-! ## Session -/

/-- The per-channel state of a session. -/
structure Session where
  LastSentIndex : Int
  deriving DecidableEq, Repr

/-- The package-level constants that `main.go` uses and another file of the
package declares: the two art templates, the prompt box and the offset of its
input field. -/
structure Assets where
  heartASCII : List Nat
  heartASCIITransparent : List Nat
  promptBox : List Nat
  promptBoxPromptRelativeOffsetX : Int
  promptBoxPromptRelativeOffsetY : Int
  deriving DecidableEq, Repr

/-- `unicode.IsSpace`. -/
def isSpace (r : Nat) : Bool :=
  (9 ≤ r && r ≤ 13) || r == 32 || r == 0x85 || r == 0xA0 || r == 0x1680
    || (0x2000 ≤ r && r ≤ 0x200A) || r == 0x2028 || r == 0x2029 || r == 0x202F
    || r == 0x205F || r == 0x3000

/-- The runes of a string, each with the bytes it was decoded from. -/
def runeChunks : Nat → List Nat → List (Nat × List Nat)
  | 0, _ => []
  | _ + 1, [] => []
  | fuel + 1, b :: bs =>
    let d := decodeRune (b :: bs)
    (d.1, (b :: bs).take d.2) :: runeChunks fuel ((b :: bs).drop d.2)

/-- `strings.TrimSpace(s)`: `s` without its leading and trailing runes that
are white space. -/
def TrimSpace (s : List Nat) : List Nat :=
  let cs := (runeChunks s.length s).dropWhile (fun c => isSpace c.1)
  let cs' := (cs.reverse.dropWhile (fun c => isSpace c.1)).reverse
  (cs'.map Prod.snd).flatten

/-- The pool of decoy messages. -/
def texts : List (List Nat) :=
  [ lit "That's a nice one, but try something else! I'm sure you can figure it out!",
    lit "Interesting input! It's not the right one though.",
    lit "Hmm, not quite right! Pay close attention to every detail today.",
    lit "The key is hidden in plain sight! Look closely at something you got from someone you love!" ]

/-- The index chosen on a rejected guess (lines 225 to 228): `draw` is the
value of `rand.Intn(len(texts))`, `last` the session's `LastSentIndex`. -/
def pickDecoy (draw : Nat) (last : Int) : Int :=
  if texts.length > 1 ∧ (draw : Int) = last then ((draw : Int) + 1) % (texts.length : Int)
  else (draw : Int)

/-- The branch of a rejected guess (lines 214 to 234). -/
def rejectedGuess (w : World) (session : Session) : World × Session :=
  let w1 := clearLinesRel w 2
  let idx := pickDecoy (w1.intn texts.length).1 session.LastSentIndex
  let w2 := (w1.intn texts.length).2.emit (texts.getD idx.toNat [] ++ lit "\r\n")
  (w2.emit (lit "To give up, use \"quit\".\r\n"), { session with LastSentIndex := idx })

/-- The indices stored by consecutive rejected guesses of one session: the
guesses are handled in the worlds `ws`, in this order, whatever the session did
in between (prompts, empty lines), and the session state is handed on. -/
def decoyIndices : List World → Session → List Int
  | [], _ => []
  | w :: ws, session =>
    (rejectedGuess w session).2.LastSentIndex :: decoyIndices ws (rejectedGuess w session).2

/-- The closure `printTypedLine` of the success script. -/
def printTypedLine (w : World) (text : List Nat) (delayMs extraPauseAfter : Int) : World :=
  let w1 := typewriterEffect w (lit "  " ++ text ++ lit "\r\n") (delayMs * Millisecond)
  if extraPauseAfter > 0 then w1.pause (extraPauseAfter * Millisecond) else w1

/-- The success script (lines 238 to 274). -/
def successScript (a : Assets) (w0 : World) : World :=
  let w := clearScreen w0
  let w := printNewLines w 1
  let w := typewriterEffect w (lit "You found the secret key! ") (50 * Millisecond)
  let w := w.pause (500 * Millisecond)
  let w := typewriterEffect w (lit "Well done!!!\r\n") (40 * Millisecond)
  let w := w.pause (1000 * Millisecond)
  let w := typewriterEffect w (lit "Initiating Valentine's Day surprise...\r\n") (20 * Millisecond)
  let w := w.pause (1000 * Millisecond)
  let w := animateHearts a.heartASCIITransparent w 0 4
  let w := printNewLines w 2
  let w := printTypedLine w (lit "                    *** Happy Valentine's Day!!! ***") 50 1000
  let w := printTypedLine w (lit "Hello my dearest Molly!") 30 100
  let w := printNewLines w 1
  let w := printTypedLine w
    (lit "Today is a beautiful day to express my deepest feelings for you.") 30 300
  let w := printTypedLine w
    (lit "You are the light of my life, the beat of my heart, and the love of my soul.") 30 400
  let w := printTypedLine w
    (lit "I am so grateful to have you in my life, and I promise I will always be there for you.")
    30 500
  let w := printNewLines w 1
  let w := printTypedLine w
    (lit "No words can possibly capture what I feel for you, but I hope this little") 30 0
  let w := printTypedLine w (lit " silly SSH surprise brings a nerdy smile to your face.") 30 1000
  let w := printNewLines w 1
  let w := printTypedLine w (lit "I love you sososososo much and I would like to") 30 0
  let w := printTypedLine w (lit " wish you the HAPPIEST VALENTINE'S DAY EVER!!! <333") 30 1000
  let w := printNewLines w 1
  let w := printTypedLine w (lit "~ Yours forever,") 30 150
  typewriterEffect w (lit "  marcelektro@bf4l.net <3") (30 * Millisecond)

/-- How one pass through the loop of `interactiveSession` ends: `again` is
`continue`, `leave` is `break` (the farewell follows), `abort` is the `return`
after a failed read (nothing follows). -/
inductive SessionFlow
  | again (w : World) (session : Session)
  | leave (w : World) (session : Session)
  | abort (w : World) (session : Session)
  deriving DecidableEq, Repr

/-- The prompt at the head of the loop of `interactiveSession` (lines 183 to
186): the cursor to column 0, row 10, the prompt box, the cursor into its input
field. -/
def prompt (a : Assets) (w : World) : World :=
  moveCursorRel (printMulti (moveCursorAbs w 0 10) a.promptBox)
    a.promptBoxPromptRelativeOffsetX a.promptBoxPromptRelativeOffsetY

/-- The body of the loop of `interactiveSession` (lines 183 to 276). -/
def sessionBody (a : Assets) (w0 : World) (session : Session) : SessionFlow :=
  let res := readLineWithEcho (prompt a w0)
  match res.err with
  | some _ => SessionFlow.abort res.world session
  | none =>
    let w4 := moveCursorAbs res.world 0 17
    let input := TrimSpace res.line
    if input = [] then
      SessionFlow.again ((clearLinesRel w4 7).emit (lit "Please enter something!\r\n")) session
    else if input = lit "exit" ∨ input = lit "quit" then SessionFlow.leave w4 session
    else if input ≠ lit "<33" then
      SessionFlow.again (rejectedGuess w4 session).1 (rejectedGuess w4 session).2
    else SessionFlow.leave (successScript a w4) session

/-- The loop of `interactiveSession` and the farewell after it.  A pass that
ends in `continue` has read a terminated line, so a `fuel` above the number of
runes still to come is never used up. -/
def sessionLoop (a : Assets) : Nat → World → Session → World × Session
  | 0, w, session => (w, session)
  | fuel + 1, w, session =>
    match sessionBody a w session with
    | SessionFlow.again w' session' => sessionLoop a fuel w' session'
    | SessionFlow.leave w' session' => (w'.emit (lit "\r\n\r\nSee you soon!\r\n"), session')
    | SessionFlow.abort w' session' => (w', session')

/-- The greeting before the loop (lines 170 to 175). -/
def greeting (a : Assets) (w : World) : World :=
  let w1 := printNewLines (clearScreen w) 2
  let w2 := printMulti w1 (ReplaceAll a.heartASCII (encodeRune blueHeart) (lit "  "))
  printNewLines w2 2

/-- `interactiveSession(channel, session)`. -/
def interactiveSession (a : Assets) (w : World) (session : Session) : World × Session :=
  sessionLoop a (w.incoming.flatten.length + 1) (greeting a w) session

/-- The session state `handleConnection` creates for a new channel. -/
def newSession : Session := ⟨-1⟩

/-! ## What the primitives write, and how a terminal reads it

Names for the events a function of the program writes, used to state what a
session has written, and the reading of written bytes by a terminal: the stack
of echoed code points and the cursor row. -/

/-- The world after the events `evs` were recorded on top of its trace. -/
def World.log (w : World) (evs : List Event) : World :=
  { w with trace := w.trace ++ evs }

/-- What `moveCursorRel(channel, x, y)` writes. -/
def relMoveEvents (x y : Int) : List Event :=
  (if y > 0 then [Event.write (lit "\x1b[" ++ fmtInt y ++ lit "B")]
    else if y < 0 then [Event.write (lit "\x1b[" ++ fmtInt (-y) ++ lit "A")]
    else []) ++
  (if x > 0 then [Event.write (lit "\x1b[" ++ fmtInt x ++ lit "C")]
    else if x < 0 then [Event.write (lit "\x1b[" ++ fmtInt (-x) ++ lit "D")]
    else [])

/-- What the greeting writes. -/
def greetingEvents (a : Assets) : List Event :=
  [Event.write (lit "\x1b[2J\x1b[H"), Event.write (lit "\r\n\r\n"),
    Event.write (ReplaceAll (ReplaceAll a.heartASCII (encodeRune blueHeart) (lit "  "))
      (lit "\n") (lit "\r\n")),
    Event.write (lit "\r\n\r\n")]

/-- What the prompt at the head of the session loop writes: the cursor to
column 0, row 10, the prompt box, the cursor into the input field. -/
def promptEvents (a : Assets) : List Event :=
  [Event.write (lit "\x1b[11;1H"),
    Event.write (ReplaceAll a.promptBox (lit "\n") (lit "\r\n"))] ++
  relMoveEvents a.promptBoxPromptRelativeOffsetX a.promptBoxPromptRelativeOffsetY

/-- What the session writes when it finds the line empty after trimming: the
cursor to column 0, row 17, seven lines cleared, the nag message. -/
def nagEvents : List Event :=
  [Event.write (lit "\x1b[18;1H")] ++
  ((List.replicate 6 [Event.write (lit "\x1b[2K\r"), Event.write (lit "\x1b[1B")]).flatten ++
    [Event.write (lit "\x1b[2K\r"), Event.write (lit "\x1b[6A")]) ++
  [Event.write (lit "Please enter something!\r\n")]

/-- The value `rand.Intn(n)` returns when the random source still holds `rnd`. -/
def drawOf (rnd : List Nat) (n : Nat) : Nat :=
  match rnd with
  | [] => 0
  | r :: _ => r % n

/-- What the session writes for a rejected guess when the index `idx` is chosen:
the cursor to column 0, row 17, two cleared lines, the decoy message at `idx`
and the reminder of `quit`. -/
def decoyEvents (idx : Int) : List Event :=
  [Event.write (lit "\x1b[18;1H"),
    Event.write (lit "\x1b[2K\r"), Event.write (lit "\x1b[1B"),
    Event.write (lit "\x1b[2K\r"), Event.write (lit "\x1b[1A"),
    Event.write (texts.getD idx.toNat [] ++ lit "\r\n"),
    Event.write (lit "To give up, use \"quit\".\r\n")]

/-- Replaying written bytes on a stack of code points (top at the end), as the
terminal sees them: backspace, space, backspace pops one element, which fails
on an empty stack; anything else is the encoding of a code point, which is
pushed.  Every step takes at least one byte, so `fuel = bytes.length` is
enough. -/
def replayFrom : Nat → List Nat → List Nat → Option (List Nat)
  | 0, bs, st => if bs = [] then some st else none
  | _ + 1, [], st => some st
  | fuel + 1, b :: bs, st =>
    if (b :: bs).take 3 = [8, 32, 8] then
      (if st = [] then none else replayFrom fuel (bs.drop 2) st.dropLast)
    else
      replayFrom fuel ((b :: bs).drop (decodeRune (b :: bs)).2) (st ++ [(decodeRune (b :: bs)).1])

/-- Replaying written bytes on an initially empty stack. -/
def replay (bytes : List Nat) : Option (List Nat) :=
  replayFrom bytes.length bytes []

/-- The number a run of decimal digits stands for. -/
def digitsValue (ds : List Nat) : Nat :=
  ds.foldl (fun acc d => acc * 10 + (d - 48)) 0

/-- The rows a terminal moves its cursor down for one written sequence, as
far as the relative moves go: ESC `[`, a number `k`, `B` is `k` rows down,
ESC `[`, `k`, `A` is `k` rows up, anything else (clear line with its CR
included) leaves the row. -/
def rowMove (bs : List Nat) : Int :=
  match bs with
  | 27 :: 91 :: rest =>
    match rest.getLast? with
    | some 66 => (digitsValue rest.dropLast : Int)
    | some 65 => -(digitsValue rest.dropLast : Int)
    | _ => 0
  | _ => 0

/-- The cursor row after the events, starting from `row`, on a screen with room
below and above. -/
def cursorRow (row : Int) : List Event → Int
  | [] => row
  | Event.write bs :: es => cursorRow (row + rowMove bs) es
  | Event.sleep _ :: es => cursorRow row es

/-! ## UTF-8: decoding what was encoded, and ranging over a string -/

/-- Every rune is encoded in at least one byte. -/
theorem encodeRune_length_pos (r : Nat) : 1 ≤ (encodeRune r).length := by
  unfold encodeRune
  split_ifs <;> simp

/-- Decoding the encoding of a scalar value gives the value and the number of
bytes of its encoding, whatever bytes follow. -/
theorem decodeRune_encodeRune (r : Nat) (rest : List Nat) (h : validRune r) :
    decodeRune (encodeRune r ++ rest) = (r, (encodeRune r).length) := by
  obtain ⟨h1, h2⟩ := h
  unfold encodeRune
  by_cases c1 : r < 0x80
  · simp [c1, decodeRune]
  · by_cases c2 : r ≤ 0x7FF
    · simp only [c1, c2, if_true, if_false, List.cons_append, List.nil_append, decodeRune, isCont]
      have a1 : ¬ (0xC0 + r / 64 < 0x80) := by omega
      have a2 : ¬ (0xC0 + r / 64 < 0xC2) := by omega
      have a3 : 0xC0 + r / 64 ≤ 0xDF := by omega
      have a4 : 0x80 ≤ 0x80 + r % 64 ∧ 0x80 + r % 64 ≤ 0xBF := by omega
      simp only [a1, a2, a3, a4, if_true, if_false, decide_True, Bool.and_self,
        List.length_cons, List.length_nil, Prod.mk.injEq, and_true]
      omega
    · have c3 : ¬ (0x10FFFF < r ∨ (0xD800 ≤ r ∧ r ≤ 0xDFFF)) := by omega
      by_cases c4 : r ≤ 0xFFFF
      · simp only [c1, c2, c3, c4, if_true, if_false, List.cons_append, List.nil_append,
          decodeRune, isCont]
        have a1 : ¬ (0xE0 + r / 4096 < 0x80) := by omega
        have a2 : ¬ (0xE0 + r / 4096 < 0xC2) := by omega
        have a3 : ¬ (0xE0 + r / 4096 ≤ 0xDF) := by omega
        have a4 : 0xE0 + r / 4096 ≤ 0xEF := by omega
        have a5 : (if 0xE0 + r / 4096 = 0xE0 then 0xA0 else 0x80) ≤ 0x80 + r / 64 % 64 := by
          split_ifs <;> omega
        have a6 : 0x80 + r / 64 % 64 ≤ (if 0xE0 + r / 4096 = 0xED then 0x9F else 0xBF) := by
          split_ifs <;> omega
        have a7 : 0x80 ≤ 0x80 + r % 64 ∧ 0x80 + r % 64 ≤ 0xBF := by omega
        simp only [a1, a2, a3, a4, if_true, if_false]
        rw [if_pos ⟨a5, a6, by simp [a7]⟩]
        simp only [List.length_cons, List.length_nil, Prod.mk.injEq, and_true]
        omega
      · simp only [c1, c2, c3, c4, if_true, if_false, List.cons_append, List.nil_append,
          decodeRune, isCont]
        have a1 : ¬ (0xF0 + r / 262144 < 0x80) := by omega
        have a2 : ¬ (0xF0 + r / 262144 < 0xC2) := by omega
        have a3 : ¬ (0xF0 + r / 262144 ≤ 0xDF) := by omega
        have a4 : ¬ (0xF0 + r / 262144 ≤ 0xEF) := by omega
        have a4' : 0xF0 + r / 262144 ≤ 0xF4 := by omega
        have a5 : (if 0xF0 + r / 262144 = 0xF0 then 0x90 else 0x80) ≤ 0x80 + r / 4096 % 64 := by
          split_ifs <;> omega
        have a6 : 0x80 + r / 4096 % 64 ≤ (if 0xF0 + r / 262144 = 0xF4 then 0x8F else 0xBF) := by
          split_ifs <;> omega
        have a7 : 0x80 ≤ 0x80 + r / 64 % 64 ∧ 0x80 + r / 64 % 64 ≤ 0xBF := by omega
        have a8 : 0x80 ≤ 0x80 + r % 64 ∧ 0x80 + r % 64 ≤ 0xBF := by omega
        simp only [a1, a2, a3, a4, a4', if_true, if_false]
        rw [if_pos ⟨a5, a6, by simp [a7], by simp [a8]⟩]
        simp only [List.length_cons, List.length_nil, Prod.mk.injEq, and_true]
        omega

/-- A rune and the rune `string(r)` holds have the same encoding. -/
theorem encodeRune_fixRune (r : Nat) : encodeRune (fixRune r) = encodeRune r := by
  unfold fixRune
  split_ifs with h
  · rfl
  · have h' : 0x10FFFF < r ∨ (0xD800 ≤ r ∧ r ≤ 0xDFFF) := by omega
    have c1 : ¬ r < 0x80 := by omega
    have c2 : ¬ r ≤ 0x7FF := by omega
    simp only [encodeRune, c1, c2, h', if_true, if_false]
    decide

/-- The rune `string(r)` holds is a scalar value. -/
theorem validRune_fixRune (r : Nat) : validRune (fixRune r) := by
  unfold fixRune validRune
  split_ifs with h
  · exact h
  · simp [RuneError]

/-- Decoding the encoding of any rune gives the rune `string(r)` holds. -/
theorem decodeRune_encode (r : Nat) (rest : List Nat) :
    decodeRune (encodeRune r ++ rest) = (fixRune r, (encodeRune r).length) := by
  rw [← encodeRune_fixRune r]
  exact decodeRune_encodeRune (fixRune r) rest (validRune_fixRune r)

/-- Ranging over `string(s)` yields the runes that `string` put in, with
enough fuel for one pass per rune. -/
theorem rangeFrom_encode (s : List Nat) :
    ∀ (fuel idx : Nat), s.length ≤ fuel →
      (rangeFrom fuel idx (stringOfRunes s)).map Prod.snd = s.map fixRune := by
  induction s with
  | nil =>
    intro fuel idx _
    cases fuel <;> simp [rangeFrom, stringOfRunes]
  | cons r s ih =>
    intro fuel idx hf
    obtain ⟨n, rfl⟩ : ∃ n, fuel = n + 1 := ⟨fuel - 1, by simp at hf; omega⟩
    have hs : stringOfRunes (r :: s) = encodeRune r ++ stringOfRunes s := by
      simp [stringOfRunes]
    obtain ⟨b, bs, hb⟩ : ∃ b bs, encodeRune r ++ stringOfRunes s = b :: bs := by
      have := encodeRune_length_pos r
      cases h : encodeRune r with
      | nil => simp [h] at this
      | cons b bs => exact ⟨b, bs ++ stringOfRunes s, by simp⟩
    have hd := decodeRune_encode r (stringOfRunes s)
    rw [hs, hb, rangeFrom, ← hb, hd]
    simp only [List.map_cons, List.drop_left, List.cons.injEq, true_and]
    exact ih n _ (by simp at hf; omega)

/-- The string of a rune slice has at least as many bytes as the slice has runes. -/
theorem length_le_stringOfRunes (s : List Nat) : s.length ≤ (stringOfRunes s).length := by
  induction s with
  | nil => simp [stringOfRunes]
  | cons r s ih =>
    have := encodeRune_length_pos r
    simp only [stringOfRunes, List.map_cons, List.flatten_cons, List.length_append,
      List.length_cons] at *
    omega

/-- The runes of `string(s)` are those of `s`, each as `string` holds it. -/
theorem runesOf_stringOfRunes (s : List Nat) : runesOf (stringOfRunes s) = s.map fixRune :=
  rangeFrom_encode s _ 0 (length_le_stringOfRunes s)

/-- A printable rune is held by `string` as a printable rune. -/
theorem fixRune_printable (r : Nat) (h : 32 ≤ r ∧ r ≠ 127) :
    32 ≤ fixRune r ∧ fixRune r ≠ 127 := by
  unfold fixRune
  split_ifs
  · exact h
  · simp [RuneError]

/-- A scalar value is held by `string` as itself. -/
theorem fixRune_of_valid (r : Nat) (h : validRune r) : fixRune r = r := by
  unfold fixRune
  exact if_pos h

/-- Decoding a non-empty string takes at least one byte. -/
theorem decodeRune_size_pos (b : Nat) (bs : List Nat) : 1 ≤ (decodeRune (b :: bs)).2 := by
  simp only [decodeRune]
  split_ifs
  all_goals try split
  all_goals try split_ifs
  all_goals first
    | exact le_refl 1
    | exact Nat.le_succ 1
    | exact Nat.le_of_ble_eq_true rfl

/-- More fuel than bytes changes nothing: `rangeString` goes through the whole
string. -/
theorem rangeFrom_fuel (fuel : Nat) :
    ∀ (k idx : Nat) (bs : List Nat), bs.length ≤ fuel →
      rangeFrom (fuel + k) idx bs = rangeFrom fuel idx bs := by
  induction fuel with
  | zero =>
    intro k idx bs h
    have : bs = [] := List.length_eq_zero.mp (Nat.le_zero.mp h)
    subst this
    cases k <;> rfl
  | succ n ih =>
    intro k idx bs h
    cases bs with
    | nil => rw [show n + 1 + k = (n + k) + 1 by omega]; rfl
    | cons b bs =>
      rw [show n + 1 + k = (n + k) + 1 by omega]
      simp only [rangeFrom]
      have hp := decodeRune_size_pos b bs
      rw [ih k _ _ (by simp only [List.length_drop, List.length_cons] at h ⊢; omega)]

/-- Ranging over ASCII bytes yields each byte with its offset. -/
theorem rangeFrom_ascii (bs : List Nat) :
    ∀ (fuel idx : Nat), (∀ b ∈ bs, b < 0x80) → bs.length ≤ fuel →
      rangeFrom fuel idx bs = bs.enumFrom idx := by
  induction bs with
  | nil => intro fuel idx _ _; cases fuel <;> simp [rangeFrom]
  | cons b bs ih =>
    intro fuel idx hb hf
    obtain ⟨n, rfl⟩ : ∃ n, fuel = n + 1 := ⟨fuel - 1, by simp at hf; omega⟩
    have hb0 : b < 0x80 := hb b (by simp)
    have hd : decodeRune (b :: bs) = (b, 1) := by simp [decodeRune, hb0]
    rw [rangeFrom, hd]
    simp only [List.drop_succ_cons, List.drop_zero, List.enumFrom_cons,
      List.cons.injEq, true_and]
    exact ih n (idx + 1) (fun x hx => hb x (by simp [hx])) (by simp at hf; omega)

/-! ## Line editor: the reader and the loop -/

/-- With nothing buffered and nothing to come, `readRune` fails. -/
theorem readRune_nil (buffered : List Nat) (chunks : List (List Nat))
    (h : buffered ++ chunks.flatten = []) : readRune buffered chunks = (none, [], []) := by
  induction chunks generalizing buffered with
  | nil =>
    cases buffered with
    | nil => rfl
    | cons r rest => simp at h
  | cons c cs ih =>
    cases buffered with
    | nil =>
      simp only [List.nil_append, List.flatten_cons, List.append_eq_nil] at h
      simpa [readRune] using ih c (by simp [h.1, h.2])
    | cons r rest => simp at h

/-- When the data to come starts with `r`, `readRune` yields `r` and leaves the
rest to come. -/
theorem readRune_cons (buffered : List Nat) (chunks : List (List Nat)) (r : Nat) (s : List Nat)
    (h : buffered ++ chunks.flatten = r :: s) :
    ∃ b c, readRune buffered chunks = (some r, b, c) ∧ b ++ c.flatten = s := by
  induction chunks generalizing buffered with
  | nil =>
    cases buffered with
    | nil => simp at h
    | cons x rest =>
      simp only [List.flatten_nil, List.append_nil, List.cons.injEq] at h
      exact ⟨rest, [], by simp [readRune, h.1], by simp [h.2]⟩
  | cons c cs ih =>
    cases buffered with
    | nil =>
      simp only [List.nil_append, List.flatten_cons] at h
      simpa [readRune] using ih c h
    | cons x rest =>
      simp only [List.cons_append, List.cons.injEq] at h
      exact ⟨rest, c :: cs, by simp [readRune, h.1], h.2⟩

/-- One pass of the read loop when the data to come starts with `r`. -/
theorem readLineLoop_step (fuel : Nat) (buffered buf : List Nat) (w : World) (r : Nat)
    (s : List Nat) (h : buffered ++ w.incoming.flatten = r :: s) :
    ∃ b c, b ++ c.flatten = s ∧
      readLineLoop (fuel + 1) buffered buf w =
        match onRune r buf { w with incoming := c } with
        | Flow.next buf' w' => readLineLoop fuel b buf' w'
        | Flow.brk buf' w' => ⟨stringOfRunes buf', none, w'⟩
        | Flow.ret line err w' => ⟨line, some err, w'⟩ := by
  obtain ⟨b, c, hr, hs⟩ := readRune_cons buffered w.incoming r s h
  exact ⟨b, c, hs, by simp only [readLineLoop, hr]⟩

/-- The read loop on an exhausted channel returns the channel error. -/
theorem readLineLoop_end (fuel : Nat) (buffered buf : List Nat) (w : World)
    (h : buffered ++ w.incoming.flatten = []) :
    readLineLoop (fuel + 1) buffered buf w = ⟨[], some w.closeErr, { w with incoming := [] }⟩ := by
  simp only [readLineLoop, readRune_nil buffered w.incoming h]

/-- The effect of a rune that neither ends the line nor interrupts: the new
line buffer and the events written do not depend on the world. -/
theorem onRune_next (r : Nat) (buf : List Nat)
    (h : r ≠ 13 ∧ r ≠ 10 ∧ r ≠ 3 ∧ r ≠ 4 ∧ r ≠ 24) :
    ∃ buf' evs, ∀ w : World,
      onRune r buf w = Flow.next buf' ⟨w.incoming, w.closeErr, w.trace ++ evs, w.rand⟩ := by
  obtain ⟨h1, h2, h3, h4, h5⟩ := h
  by_cases hd : r = 127
  · by_cases hb : buf.length > 0
    · exact ⟨buf.dropLast, [Event.write [8, 32, 8]], fun w => by simp [onRune, hd, hb, World.emit]⟩
    · exact ⟨buf, [], fun w => by simp [onRune, hd, hb]⟩
  · by_cases hp : r ≥ 32
    · exact ⟨buf ++ [r], [Event.write (encodeRune r)], fun w => by
        simp [onRune, h1, h2, h3, h4, h5, hd, hp, World.emit]⟩
    · exact ⟨buf, [], fun w => by simp [onRune, h1, h2, h3, h4, h5, hd, hp]⟩

/-- A printable rune is appended and echoed. -/
theorem onRune_printable (r : Nat) (buf : List Nat) (w : World) (h : 32 ≤ r ∧ r ≠ 127) :
    onRune r buf w = Flow.next (buf ++ [r]) (w.emit (encodeRune r)) := by
  obtain ⟨h1, h2⟩ := h
  have : r ≠ 13 ∧ r ≠ 10 ∧ r ≠ 3 ∧ r ≠ 4 ∧ r ≠ 24 := by omega
  obtain ⟨a1, a2, a3, a4, a5⟩ := this
  simp [onRune, a1, a2, a3, a4, a5, h2, h1]

/-- The loop body does not touch what the channel will deliver. -/
theorem onRune_incoming (r : Nat) (buf : List Nat) (w : World) :
    match onRune r buf w with
    | Flow.next _ w' => w'.incoming = w.incoming
    | Flow.brk _ w' => w'.incoming = w.incoming
    | Flow.ret _ _ w' => w'.incoming = w.incoming := by
  unfold onRune
  split_ifs <;> rfl

/-- What one pass of the loop body does to the line buffer: a pass that goes on
or breaks leaves a buffer of printable runes printable. -/
theorem onRune_keeps_printable (r : Nat) (buf : List Nat) (w : World)
    (hb : ∀ x ∈ buf, 32 ≤ x ∧ x ≠ 127) :
    match onRune r buf w with
    | Flow.next buf' _ => ∀ x ∈ buf', 32 ≤ x ∧ x ≠ 127
    | Flow.brk buf' _ => ∀ x ∈ buf', 32 ≤ x ∧ x ≠ 127
    | Flow.ret _ _ _ => True := by
  unfold onRune
  split_ifs with h1 h2 h3 h4 h5
  · exact hb
  · exact fun x hx => hb x (List.mem_of_mem_dropLast hx)
  · exact hb
  · trivial
  · intro x hx
    rcases List.mem_append.mp hx with hx | hx
    · exact hb x hx
    · simp only [List.mem_singleton] at hx
      subst hx
      exact h5
  · exact hb

/-- More fuel than runes to come changes nothing: the loop of `readLineWithEcho`
always ends by itself. -/
theorem readLineLoop_fuel (fuel : Nat) :
    ∀ (k : Nat) (buffered buf : List Nat) (w : World),
      (buffered ++ w.incoming.flatten).length + 1 ≤ fuel →
      readLineLoop (fuel + k) buffered buf w = readLineLoop fuel buffered buf w := by
  induction fuel with
  | zero => intro k buffered buf w h; omega
  | succ n ih =>
    intro k buffered buf w h
    rw [show n + 1 + k = (n + k) + 1 by omega]
    cases hs : buffered ++ w.incoming.flatten with
    | nil => rw [readLineLoop_end _ _ _ _ hs, readLineLoop_end _ _ _ _ hs]
    | cons r s =>
      obtain ⟨b, c, hr, hbc⟩ := readRune_cons buffered w.incoming r s hs
      simp only [readLineLoop, hr]
      have hinc := onRune_incoming r buf { w with incoming := c }
      rcases ho : onRune r buf { w with incoming := c } with ⟨buf', w'⟩ | ⟨buf', w'⟩ | ⟨l, e, w'⟩
      · rw [ho] at hinc
        simp only at hinc ⊢
        refine ih k b buf' w' ?_
        rw [hinc, hbc]
        rw [hs] at h
        simpa using h
      · rfl
      · rfl

/-- A read that returns a line has taken at least one rune (the terminator)
from the channel. -/
theorem readLineLoop_consumes (fuel : Nat) :
    ∀ (buffered buf : List Nat) (w : World),
      (readLineLoop fuel buffered buf w).err = none →
      (readLineLoop fuel buffered buf w).world.incoming.flatten.length + 1 ≤
        (buffered ++ w.incoming.flatten).length := by
  induction fuel with
  | zero => intro buffered buf w h; simp [readLineLoop] at h
  | succ n ih =>
    intro buffered buf w h
    cases hs : buffered ++ w.incoming.flatten with
    | nil => rw [readLineLoop_end _ _ _ _ hs] at h; simp at h
    | cons r s =>
      obtain ⟨b, c, hr, hbc⟩ := readRune_cons buffered w.incoming r s hs
      simp only [readLineLoop, hr] at h ⊢
      have hinc := onRune_incoming r buf { w with incoming := c }
      rcases ho : onRune r buf { w with incoming := c } with ⟨buf', w'⟩ | ⟨buf', w'⟩ | ⟨l, e, w'⟩
      · rw [ho] at hinc h
        simp only at hinc h ⊢
        have := ih b buf' w' h
        rw [hinc, hbc] at this
        simp only [List.length_cons]
        omega
      · rw [ho] at hinc
        simp only at hinc ⊢
        rw [hinc, ← hbc]
        simp
      · rw [ho] at h
        simp at h

/-- The read loop on printable runes followed by a terminator: line, error and
what is written. -/
theorem readLineLoop_printable (s : List Nat) :
    ∀ (fuel : Nat) (buffered buf : List Nat) (w : World) (t : Nat) (rest : List Nat),
      (∀ r ∈ s, 32 ≤ r ∧ r ≠ 127) → (t = 13 ∨ t = 10) →
      buffered ++ w.incoming.flatten = s ++ t :: rest → s.length + 1 ≤ fuel →
      (readLineLoop fuel buffered buf w).line = stringOfRunes (buf ++ s) ∧
      (readLineLoop fuel buffered buf w).err = none ∧
      (readLineLoop fuel buffered buf w).world.trace =
        w.trace ++ s.map (fun r => Event.write (encodeRune r)) := by
  induction s with
  | nil =>
    intro fuel buffered buf w t rest _ ht hin hf
    obtain ⟨n, rfl⟩ : ∃ n, fuel = n + 1 := ⟨fuel - 1, by omega⟩
    obtain ⟨b, c, _, heq⟩ := readLineLoop_step n buffered buf w t rest (by simpa using hin)
    have hbrk : ∀ w' : World, onRune t buf w' = Flow.brk buf w' := by
      intro w'; simp [onRune, ht]
    rw [heq, hbrk]
    simp
  | cons x s ih =>
    intro fuel buffered buf w t rest hs ht hin hf
    obtain ⟨n, rfl⟩ : ∃ n, fuel = n + 1 := ⟨fuel - 1, by simp at hf; omega⟩
    obtain ⟨b, c, hbc, heq⟩ :=
      readLineLoop_step n buffered buf w x (s ++ t :: rest) (by simpa using hin)
    rw [heq, onRune_printable x buf _ (hs x (by simp))]
    have := ih n b (buf ++ [x]) (World.emit { w with incoming := c } (encodeRune x)) t rest
      (fun r hr => hs r (by simp [hr])) ht (by simpa [World.emit] using hbc)
      (by simp at hf; omega)
    simpa [World.emit] using this

/-- A line returned with a nil error is the string of a buffer of printable
runes, when the loop started from such a buffer. -/
theorem readLineLoop_ok_printable (fuel : Nat) :
    ∀ (buffered buf : List Nat) (w : World), (∀ x ∈ buf, 32 ≤ x ∧ x ≠ 127) →
      (readLineLoop fuel buffered buf w).err = none →
      ∃ buf', (∀ x ∈ buf', 32 ≤ x ∧ x ≠ 127) ∧
        (readLineLoop fuel buffered buf w).line = stringOfRunes buf' := by
  induction fuel with
  | zero => intro buffered buf w _ h; simp [readLineLoop] at h
  | succ n ih =>
    intro buffered buf w hb h
    rcases hr : readRune buffered w.incoming with ⟨_ | r, b, c⟩
    · simp [readLineLoop, hr] at h
    · have hk := onRune_keeps_printable r buf { w with incoming := c } hb
      simp only [readLineLoop, hr] at h ⊢
      rcases ho : onRune r buf { w with incoming := c } with ⟨buf', w'⟩ | ⟨buf', w'⟩ | ⟨l, e, w'⟩
      · rw [ho] at hk h
        exact ih b buf' w' hk h
      · rw [ho] at hk h
        exact ⟨buf', hk, rfl⟩
      · rw [ho] at h
        simp at h

/-- The read loop on a prefix without terminator and interrupt code, followed
by an interrupt code: the result, and the trace compared with the run on the
prefix alone. -/
theorem readLineLoop_interrupt (p : List Nat) :
    ∀ (fuel fuel' : Nat) (buffered buffered' buf : List Nat) (w w' : World) (c : Nat)
      (rest : List Nat),
      (∀ r ∈ p, r ≠ 13 ∧ r ≠ 10 ∧ r ≠ 3 ∧ r ≠ 4 ∧ r ≠ 24) → (c = 3 ∨ c = 4 ∨ c = 24) →
      buffered ++ w.incoming.flatten = p ++ c :: rest →
      buffered' ++ w'.incoming.flatten = p → w.trace = w'.trace →
      p.length + 1 ≤ fuel → p.length + 1 ≤ fuel' →
      (readLineLoop fuel buffered buf w).line = [] ∧
      (readLineLoop fuel buffered buf w).err = some GoError.eof ∧
      (readLineLoop fuel buffered buf w).world.trace =
        (readLineLoop fuel' buffered' buf w').world.trace := by
  induction p with
  | nil =>
    intro fuel fuel' buffered buffered' buf w w' c rest _ hc hin hin' htr hf hf'
    obtain ⟨n, rfl⟩ : ∃ n, fuel = n + 1 := ⟨fuel - 1, by omega⟩
    obtain ⟨n', rfl⟩ : ∃ n, fuel' = n + 1 := ⟨fuel' - 1, by omega⟩
    obtain ⟨b, ch, _, heq⟩ := readLineLoop_step n buffered buf w c rest (by simpa using hin)
    have hret : ∀ v : World, onRune c buf v = Flow.ret [] GoError.eof v := by
      intro v
      rcases hc with rfl | rfl | rfl <;> simp [onRune]
    rw [heq, hret, readLineLoop_end n' buffered' buf w' hin']
    simp [htr]
  | cons x p ih =>
    intro fuel fuel' buffered buffered' buf w w' c rest hp hc hin hin' htr hf hf'
    obtain ⟨n, rfl⟩ : ∃ n, fuel = n + 1 := ⟨fuel - 1, by simp at hf; omega⟩
    obtain ⟨n', rfl⟩ : ∃ n, fuel' = n + 1 := ⟨fuel' - 1, by simp at hf'; omega⟩
    obtain ⟨b, ch, hb, heq⟩ :=
      readLineLoop_step n buffered buf w x (p ++ c :: rest) (by simpa using hin)
    obtain ⟨b', ch', hb', heq'⟩ := readLineLoop_step n' buffered' buf w' x p hin'
    obtain ⟨buf2, evs, hon⟩ := onRune_next x buf (hp x (by simp))
    rw [heq, heq', hon, hon]
    exact ih n n' b b' buf2 _ _ c rest (fun r hr => hp r (by simp [hr])) hc
      (by simpa using hb) (by simpa using hb') (by simp [htr])
      (by simp at hf; omega) (by simp at hf'; omega)

/-- A read whose first rune is LF returns the empty line; the rest of that
delivery is gone with the reader. -/
theorem readLineWithEcho_leading_lf (v : World) (chunk : List Nat) (chunks : List (List Nat))
    (hv : v.incoming = (10 :: chunk) :: chunks) :
    readLineWithEcho v = ⟨[], none, { v with incoming := chunks }⟩ := by
  simp [readLineWithEcho, readLineLoop, readRune, onRune, hv, stringOfRunes]

/-! ## Line editor: the claims -/

/-- C1: a sequence `s` of printable code points (each at least 32 and not 127)
followed by CR or LF, however the channel delivers it and whatever follows, makes
`readLineWithEcho` return the string of `s` with a nil error; when the code
points are scalar values, the runes of the returned line are exactly `s`. -/
theorem readLineWithEcho_printable (w : World) (s rest : List Nat) (t : Nat)
    (hs : ∀ r ∈ s, 32 ≤ r ∧ r ≠ 127) (ht : t = 13 ∨ t = 10)
    (hin : w.incoming.flatten = s ++ t :: rest) :
    (readLineWithEcho w).line = stringOfRunes s ∧ (readLineWithEcho w).err = none ∧
      ((∀ r ∈ s, validRune r) → runesOf (readLineWithEcho w).line = s) := by
  have h := readLineLoop_printable s (w.incoming.flatten.length + 1) [] [] w t rest hs ht
    (by simpa using hin) (by rw [hin]; simp)
  refine ⟨by simpa [readLineWithEcho] using h.1, h.2.1, fun hv => ?_⟩
  have hl : (readLineWithEcho w).line = stringOfRunes s := by
    simpa [readLineWithEcho] using h.1
  rw [hl, runesOf_stringOfRunes]
  exact (List.map_congr_left (fun r hr => fixRune_of_valid r (hv r hr))).trans (List.map_id s)

/-- C1 at `"a\u00e9"` in one read and a blue heart, CR, LF in the next. -/
theorem readLineWithEcho_printable_witness :
    ((∀ r ∈ [97, 233, 128153], 32 ≤ r ∧ r ≠ 127) ∧ ((13 : Nat) = 13 ∨ (13 : Nat) = 10) ∧
      (World.mk [[97, 233], [128153, 13, 10]] GoError.eof [] []).incoming.flatten
        = [97, 233, 128153] ++ 13 :: [10]) ∧
    (readLineWithEcho ⟨[[97, 233], [128153, 13, 10]], GoError.eof, [], []⟩).line
      = [97, 195, 169, 240, 159, 146, 153] ∧
    (readLineWithEcho ⟨[[97, 233], [128153, 13, 10]], GoError.eof, [], []⟩).err = none :=
  ⟨⟨by decide, by decide, by decide⟩,
    by
      have h := readLineWithEcho_printable ⟨[[97, 233], [128153, 13, 10]], GoError.eof, [], []⟩
        [97, 233, 128153] [10] 13 (by decide) (by decide) (by decide)
      exact ⟨h.1.trans (by decide), h.2.1⟩⟩

/-- C2: after any input without terminator and interrupt code, however the
channel delivers it, a code point 3, 4 or 24 makes `readLineWithEcho` return the
empty line with the error `io.EOF`, and what was written to the channel is what
the input before that code point alone makes it write: nothing is written for
the code point, nothing after it is looked at. -/
theorem readLineWithEcho_interrupt (w : World) (p rest : List Nat) (c : Nat)
    (hp : ∀ r ∈ p, r ≠ 13 ∧ r ≠ 10 ∧ r ≠ 3 ∧ r ≠ 4 ∧ r ≠ 24) (hc : c = 3 ∨ c = 4 ∨ c = 24)
    (hin : w.incoming.flatten = p ++ c :: rest) :
    (readLineWithEcho w).line = [] ∧ (readLineWithEcho w).err = some GoError.eof ∧
      (readLineWithEcho w).world.trace =
        (readLineWithEcho { w with incoming := [p] }).world.trace := by
  unfold readLineWithEcho
  exact readLineLoop_interrupt p _ _ [] [] [] w { w with incoming := [p] } c rest hp hc
    (by simpa using hin) (by simp) rfl (by rw [hin]; simp) (by simp)

/-- C2 at `a`, DEL, `b`, ETX, `c`, CR delivered in two reads. -/
theorem readLineWithEcho_interrupt_witness :
    ((∀ r ∈ [97, 127, 98], r ≠ 13 ∧ r ≠ 10 ∧ r ≠ 3 ∧ r ≠ 4 ∧ r ≠ 24) ∧
      ((3 : Nat) = 3 ∨ (3 : Nat) = 4 ∨ (3 : Nat) = 24) ∧
      (World.mk [[97, 127], [98, 3, 99, 13]] GoError.eof [] []).incoming.flatten
        = [97, 127, 98] ++ 3 :: [99, 13]) ∧
    (readLineWithEcho ⟨[[97, 127], [98, 3, 99, 13]], GoError.eof, [], []⟩).line = [] ∧
    (readLineWithEcho ⟨[[97, 127], [98, 3, 99, 13]], GoError.eof, [], []⟩).err
      = some GoError.eof ∧
    (readLineWithEcho ⟨[[97, 127], [98, 3, 99, 13]], GoError.eof, [], []⟩).world.trace
      = [Event.write [97], Event.write [8, 32, 8], Event.write [98]] :=
  ⟨⟨by decide, by decide, by decide⟩,
    by
      have h := readLineWithEcho_interrupt ⟨[[97, 127], [98, 3, 99, 13]], GoError.eof, [], []⟩
        [97, 127, 98] [99, 13] 3 (by decide) (by decide) (by decide)
      exact ⟨h.1, h.2.1, h.2.2.trans (by decide)⟩⟩

/-- C3: in the loop body of `readLineWithEcho`, DEL (127) on an empty buffer goes
on with the buffer empty and the world untouched (nothing written); on a buffer
`buf ++ [x]` it goes on with `buf`, and the one thing written is the three bytes
backspace, space, backspace. -/
theorem onRune_del (w : World) (buf : List Nat) (x : Nat) :
    onRune 127 [] w = Flow.next [] w ∧
      onRune 127 (buf ++ [x]) w = Flow.next buf (w.emit [8, 32, 8]) ∧
      (w.emit [8, 32, 8]).trace = w.trace ++ [Event.write [8, 32, 8]] ∧
      (w.emit [8, 32, 8]).incoming = w.incoming := by
  refine ⟨by simp [onRune], ?_, rfl, rfl⟩
  simp [onRune]

/-- C5: a line that `readLineWithEcho` returns with a nil error holds only code
points that are at least 32 and not 127, whatever the input was; and in the loop
body a control character other than CR, LF, 3, 4 and 24 leaves the buffer and
the world as they are (not appended, not echoed). -/
theorem readLineWithEcho_line_printable (w : World) (h : (readLineWithEcho w).err = none) :
    (∀ r ∈ runesOf (readLineWithEcho w).line, 32 ≤ r ∧ r ≠ 127) ∧
      (∃ buf, (readLineWithEcho w).line = stringOfRunes buf ∧ ∀ r ∈ buf, 32 ≤ r ∧ r ≠ 127) ∧
      (∀ (c : Nat) (buf : List Nat) (v : World),
        c < 32 → c ≠ 13 → c ≠ 10 → c ≠ 3 → c ≠ 4 → c ≠ 24 → onRune c buf v = Flow.next buf v) := by
  obtain ⟨buf, hb, hl⟩ :=
    readLineLoop_ok_printable (w.incoming.flatten.length + 1) [] [] w (by simp) h
  have hl' : (readLineWithEcho w).line = stringOfRunes buf := hl
  refine ⟨?_, ⟨buf, hl', hb⟩, ?_⟩
  · rw [hl', runesOf_stringOfRunes]
    intro r hr
    obtain ⟨x, hx, rfl⟩ := List.mem_map.mp hr
    exact fixRune_printable x (hb x hx)
  · intro c buf v h1 h2 h3 h4 h5 h6
    have h7 : c ≠ 127 := by omega
    have h8 : ¬ c ≥ 32 := by omega
    simp [onRune, h2, h3, h4, h5, h6, h7, h8]

/-- C5 at a mix of control characters, DELs and printable runes. -/
theorem readLineWithEcho_line_printable_witness :
    (readLineWithEcho ⟨[[7, 97, 127, 127], [27, 98, 0, 233, 9, 13]], GoError.eof, [], []⟩).err
        = none ∧
      (∀ r ∈ runesOf
          (readLineWithEcho ⟨[[7, 97, 127, 127], [27, 98, 0, 233, 9, 13]], GoError.eof, [], []⟩).line,
        32 ≤ r ∧ r ≠ 127) ∧
      (readLineWithEcho ⟨[[7, 97, 127, 127], [27, 98, 0, 233, 9, 13]], GoError.eof, [], []⟩).line
        = [98, 195, 169] :=
  ⟨by decide,
    (readLineWithEcho_line_printable
      ⟨[[7, 97, 127, 127], [27, 98, 0, 233, 9, 13]], GoError.eof, [], []⟩ (by decide)).1,
    by decide⟩

/-! ## Session: what a pass of the loop does to the channel -/

/-- `moveCursorRel` does not touch what the channel will deliver. -/
theorem moveCursorRel_incoming (w : World) (x y : Int) :
    (moveCursorRel w x y).incoming = w.incoming := by
  unfold moveCursorRel
  simp only
  split_ifs <;> rfl

/-- The prompt does not touch what the channel will deliver. -/
theorem prompt_incoming (a : Assets) (w : World) : (prompt a w).incoming = w.incoming := by
  unfold prompt
  rw [moveCursorRel_incoming]
  rfl

/-- `clearLinesRel` does not touch what the channel will deliver. -/
theorem clearLinesRel_incoming (w : World) (n : Int) :
    (clearLinesRel w n).incoming = w.incoming := by
  unfold clearLinesRel
  rw [moveCursorRel_incoming]
  generalize List.range n.toNat = l
  induction l generalizing w with
  | nil => rfl
  | cons i l ih =>
    rw [List.foldl_cons, ih]
    unfold clearLinesStep
    simp only
    split_ifs
    · rw [moveCursorRel_incoming]; rfl
    · rfl

/-- `rand.Intn` does not touch what the channel will deliver. -/
theorem intn_incoming (w : World) (n : Nat) : (w.intn n).2.incoming = w.incoming := by
  unfold World.intn
  cases w.rand <;> rfl

/-- The branch of a rejected guess does not touch what the channel will deliver. -/
theorem rejectedGuess_incoming (w : World) (s : Session) :
    (rejectedGuess w s).1.incoming = w.incoming := by
  simp only [rejectedGuess, World.emit, intn_incoming, clearLinesRel_incoming]

/-- A pass of the session loop that ends in `continue` has taken at least one
rune from the channel. -/
theorem sessionBody_consumes (a : Assets) (w w' : World) (s s' : Session)
    (h : sessionBody a w s = SessionFlow.again w' s') :
    w'.incoming.flatten.length + 1 ≤ w.incoming.flatten.length := by
  have hc := readLineLoop_consumes ((prompt a w).incoming.flatten.length + 1) [] [] (prompt a w)
  simp only [List.nil_append, prompt_incoming] at hc
  unfold sessionBody at h
  simp only [readLineWithEcho, prompt_incoming] at h
  generalize readLineLoop _ [] [] (prompt a w) = res at h hc
  rcases res with ⟨line, _ | e, world⟩
  · have hc' := hc rfl
    simp only at h hc'
    split_ifs at h
    · injection h with h1 _
      rw [← h1]
      simpa [World.emit, clearLinesRel_incoming, moveCursorAbs] using hc'
    · injection h with h1 _
      rw [← h1, rejectedGuess_incoming]
      simpa [World.emit, moveCursorAbs] using hc'
  · simp at h

/-- More fuel than runes to come changes nothing: the loop of
`interactiveSession` always ends by itself. -/
theorem sessionLoop_fuel (a : Assets) (fuel : Nat) :
    ∀ (k : Nat) (w : World) (s : Session), w.incoming.flatten.length + 1 ≤ fuel →
      sessionLoop a (fuel + k) w s = sessionLoop a fuel w s := by
  induction fuel with
  | zero => intro k w s h; omega
  | succ n ih =>
    intro k w s h
    rw [show n + 1 + k = (n + k) + 1 by omega]
    simp only [sessionLoop]
    rcases hb : sessionBody a w s with ⟨w', s'⟩ | ⟨w', s'⟩ | ⟨w', s'⟩
    · have := sessionBody_consumes a w w' s s' hb
      exact ih k w' s' (by omega)
    · rfl
    · rfl

/-- The pass of the session loop whose read starts at a left-over LF: the nag
message and `continue`. -/
theorem sessionBody_leading_lf (a : Assets) (w : World) (s : Session) (chunk : List Nat)
    (chunks : List (List Nat)) (hw : w.incoming = (10 :: chunk) :: chunks) :
    sessionBody a w s =
      SessionFlow.again
        ((clearLinesRel (moveCursorAbs { prompt a w with incoming := chunks } 0 17) 7).emit
          (lit "Please enter something!\r\n")) s := by
  have hread := readLineWithEcho_leading_lf (prompt a w) chunk chunks
    ((prompt_incoming a w).trans hw)
  have ht : TrimSpace [] = [] := by decide
  unfold sessionBody
  simp only [hread, ht, if_true]

/-- C4 (the code at the failing input): a read whose first rune is a left-over
LF returns the empty line with a nil error at once, and the pass of the session
loop that makes this read answers with the nag message; so the session that gets
`"abc\r"` in one read and `"\n"` in the next reports an empty input after the
decoy for `abc`.  When all five bytes come in one read the LF is lost with the
`bufio.Reader` of the first call and no nag is written. -/
theorem stray_lf_reads_as_empty_line :
    (∀ (chunk : List Nat) (chunks : List (List Nat)) (e : GoError) (tr : List Event)
        (rnd : List Nat),
      (readLineWithEcho ⟨(10 :: chunk) :: chunks, e, tr, rnd⟩).line = [] ∧
      (readLineWithEcho ⟨(10 :: chunk) :: chunks, e, tr, rnd⟩).err = none) ∧
    (∀ (a : Assets) (chunk : List Nat) (chunks : List (List Nat)) (e : GoError)
        (tr : List Event) (rnd : List Nat) (s : Session),
      ∃ w' pre, sessionBody a ⟨(10 :: chunk) :: chunks, e, tr, rnd⟩ s = SessionFlow.again w' s ∧
        w'.trace = pre ++ [Event.write (lit "Please enter something!\r\n")]) ∧
    (readLineWithEcho ⟨[[97, 98, 99, 13], [10]], GoError.eof, [], []⟩).line = lit "abc" ∧
    (readLineWithEcho ⟨[[97, 98, 99, 13], [10]], GoError.eof, [], []⟩).world.incoming = [[10]] ∧
    Event.write (lit "Please enter something!\r\n") ∈
      (interactiveSession ⟨lit "<3", lit "<3", lit "> ", 2, -1⟩
        ⟨[[97, 98, 99, 13], [10]], GoError.eof, [], []⟩ newSession).1.trace ∧
    Event.write (lit "Please enter something!\r\n") ∉
      (interactiveSession ⟨lit "<3", lit "<3", lit "> ", 2, -1⟩
        ⟨[[97, 98, 99, 13, 10]], GoError.eof, [], []⟩ newSession).1.trace := by
  refine ⟨?_, ?_, by decide, by decide, by decide, by decide⟩
  · intro chunk chunks e tr rnd
    rw [readLineWithEcho_leading_lf _ chunk chunks rfl]
    exact ⟨rfl, rfl⟩
  · intro a chunk chunks e tr rnd s
    exact ⟨_, _, sessionBody_leading_lf a _ s chunk chunks rfl, rfl⟩

/-! ## Session: decoy selection -/

/-- `rand.Intn(n)` is below `n`. -/
theorem intn_lt (w : World) (n : Nat) (hn : 0 < n) : (w.intn n).1 < n := by
  unfold World.intn
  cases w.rand with
  | nil => exact hn
  | cons r rs => exact Nat.mod_lt r hn

/-- The pool has four decoy messages. -/
theorem texts_length : texts.length = 4 := rfl

/-- The chosen index is never the previous one. -/
theorem pickDecoy_ne (draw : Nat) (last : Int) : pickDecoy draw last ≠ last := by
  unfold pickDecoy
  rw [texts_length]
  split_ifs with h
  · obtain ⟨_, h2⟩ := h
    rw [← h2]
    push_cast
    omega
  · intro h'
    exact h ⟨by decide, h'⟩

/-- For a draw below 4 the chosen index lies in `0..3`. -/
theorem pickDecoy_range (draw : Nat) (last : Int) (hd : draw < 4) :
    0 ≤ pickDecoy draw last ∧ pickDecoy draw last < 4 := by
  unfold pickDecoy
  rw [texts_length]
  split_ifs with h
  · push_cast
    omega
  · omega

/-- The index `rejectedGuess` stores is the one `pickDecoy` chooses. -/
theorem rejectedGuess_index (w : World) (s : Session) :
    (rejectedGuess w s).2.LastSentIndex =
      pickDecoy ((clearLinesRel w 2).intn texts.length).1 s.LastSentIndex := rfl

/-- Starting from any session state, neighbouring decoy indices differ. -/
theorem decoyIndices_chain (ws : List World) :
    ∀ s : Session, List.Chain (fun i j : Int => i ≠ j) s.LastSentIndex (decoyIndices ws s) := by
  induction ws with
  | nil => intro s; exact List.Chain.nil
  | cons w ws ih =>
    intro s
    refine List.Chain.cons ?_ (ih _)
    rw [rejectedGuess_index]
    exact (pickDecoy_ne _ _).symm

/-- What a pass of the session loop does to the session state. -/
theorem sessionBody_session (a : Assets) (w : World) (s : Session) :
    match sessionBody a w s with
    | SessionFlow.again _ s' => s' = s ∨ s'.LastSentIndex ≠ s.LastSentIndex
    | SessionFlow.leave _ s' => s' = s
    | SessionFlow.abort _ s' => s' = s := by
  unfold sessionBody
  simp only
  generalize readLineWithEcho _ = res
  rcases res with ⟨line, _ | e, world⟩
  · simp only
    split_ifs
    · exact Or.inl rfl
    · trivial
    · refine Or.inr ?_
      rw [rejectedGuess_index]
      exact pickDecoy_ne _ _
    · trivial
  · trivial

/-- C6: the index chosen on a rejected guess differs from the session's previous
`LastSentIndex` for every draw and every previous value; `rejectedGuess` stores
it in `LastSentIndex`, it lies in `0..3`, and the message written is the entry of
the pool at that index (the entries are pairwise different); a pass of the
session loop changes `LastSentIndex` only to a different value; so the indices
chosen by consecutive rejected guesses of a session, starting from any state,
never have two equal neighbours. -/
theorem decoy_never_repeats :
    (∀ (draw : Nat) (last : Int), pickDecoy draw last ≠ last) ∧
    (∀ (w : World) (s : Session),
      (rejectedGuess w s).2.LastSentIndex ≠ s.LastSentIndex ∧
      0 ≤ (rejectedGuess w s).2.LastSentIndex ∧ (rejectedGuess w s).2.LastSentIndex < 4 ∧
      ∃ pre, (rejectedGuess w s).1.trace =
        pre ++ [Event.write (texts.getD (rejectedGuess w s).2.LastSentIndex.toNat [] ++ lit "\r\n"),
          Event.write (lit "To give up, use \"quit\".\r\n")]) ∧
    texts.Nodup ∧
    (∀ (a : Assets) (w w' : World) (s s' : Session),
      sessionBody a w s = SessionFlow.again w' s' →
        s' = s ∨ s'.LastSentIndex ≠ s.LastSentIndex) ∧
    (∀ (ws : List World) (s : Session),
      List.Chain (fun i j : Int => i ≠ j) s.LastSentIndex (decoyIndices ws s)) := by
  refine ⟨pickDecoy_ne, ?_, by decide, ?_, fun ws s => decoyIndices_chain ws s⟩
  · intro w s
    have hr := pickDecoy_range ((clearLinesRel w 2).intn texts.length).1 s.LastSentIndex
      (intn_lt _ _ (by decide))
    refine ⟨?_, ?_, ?_, ?_⟩
    · rw [rejectedGuess_index]; exact pickDecoy_ne _ _
    · rw [rejectedGuess_index]; exact hr.1
    · rw [rejectedGuess_index]; exact hr.2
    · exact ⟨((clearLinesRel w 2).intn texts.length).2.trace, by
        simp [rejectedGuess, World.emit]⟩
  · intro a w w' s s' h
    have := sessionBody_session a w s
    rw [h] at this
    exact this

/-! ## Heart animation -/

/-- A loop that appends `f x` for each `x` appends the concatenation. -/
theorem foldl_append_eq {α : Type} (f : α → List Nat) (l : List α) :
    ∀ init : List Nat, l.foldl (fun b x => b ++ f x) init = init ++ (l.map f).flatten := by
  induction l with
  | nil => intro init; simp
  | cons x l ih => intro init; simp [ih]

/-- Joining rows with a separator, the last row taken apart. -/
theorem intercalate_concat (sep : List Nat) (l : List (List Nat)) (x : List Nat) :
    List.intercalate sep (l ++ [x]) = (l.map (fun r => r ++ sep)).flatten ++ x := by
  induction l with
  | nil => simp [List.intercalate]
  | cons a l ih =>
    cases l with
    | nil => simp [List.intercalate]
    | cons b l =>
      have h1 : List.intercalate sep (a :: b :: (l ++ [x])) =
          a ++ sep ++ List.intercalate sep (b :: (l ++ [x])) := by
        simp [List.intercalate, List.intersperse]
      simp only [List.cons_append] at ih ⊢
      rw [h1, ih]
      simp

/-- The outer loop of `renderFrame` over the first `n` rows. -/
theorem foldl_rows (rowOf : Nat → List Nat) (sep : List Nat) (h : Nat) :
    ∀ n, n ≤ h →
      (List.range n).foldl
        (fun (b : List Nat) (y : Nat) =>
          if (y : Int) < (h : Int) - 1 then (b ++ rowOf y) ++ sep else b ++ rowOf y) []
      = ((List.range n).map
          (fun y => if y + 1 < h then rowOf y ++ sep else rowOf y)).flatten := by
  intro n
  induction n with
  | zero => intro _; simp
  | succ n ih =>
    intro hn
    rw [List.range_succ, List.foldl_append, ih (by omega)]
    simp only [List.foldl_cons, List.foldl_nil, List.map_append, List.map_cons, List.map_nil,
      List.flatten_append, List.flatten_cons, List.flatten_nil, List.append_nil]
    by_cases hlt : n + 1 < h
    · have : ((n : Nat) : Int) < (h : Int) - 1 := by omega
      simp [hlt, this]
    · have : ¬ (((n : Nat) : Int) < (h : Int) - 1) := by omega
      simp [hlt, this]

/-- The nested loops of `renderFrame` write the rows `0..h-1`, each the cells
`0..w-1` in order, with CR LF between two rows. -/
theorem renderFrame_eq (paint : Nat → Nat → Nat → List Nat) (grid : List (List Nat))
    (h w : Nat) :
    renderFrame paint grid h w =
      List.intercalate (lit "\r\n")
        ((List.range h).map
          (fun y => ((List.range w).map (fun x => paint y x (cellAt grid y x))).flatten)) := by
  have hrow : ∀ (b : List Nat) (y : Nat),
      (List.range w).foldl (fun b x => b ++ paint y x (cellAt grid y x)) b =
        b ++ ((List.range w).map (fun x => paint y x (cellAt grid y x))).flatten :=
    fun b y => foldl_append_eq (fun x => paint y x (cellAt grid y x)) (List.range w) b
  unfold renderFrame
  simp only [hrow]
  rw [foldl_rows _ _ h h (le_refl h)]
  cases h with
  | zero => simp [List.intercalate]
  | succ n =>
    rw [List.range_succ, List.map_append, List.map_append, List.map_cons, List.map_nil,
      List.map_cons, List.map_nil, intercalate_concat, List.flatten_append]
    simp only [lt_self_iff_false, if_false, List.flatten_cons, List.flatten_nil,
      List.append_nil, List.map_map]
    congr 2
    apply List.map_congr_left
    intro y hy
    have : y + 1 < n + 1 := by simpa using List.mem_range.mp hy
    simp [this]

/-- The running maximum of the width loop is at least its start value and at
least the rune count of every line. -/
theorem foldl_width_ge (lines : List (List Nat)) :
    ∀ w0 : Nat,
      w0 ≤ lines.foldl
        (fun w ln => if (runesOf ln).length > w then (runesOf ln).length else w) w0 ∧
      ∀ ln ∈ lines, (runesOf ln).length ≤ lines.foldl
        (fun w ln => if (runesOf ln).length > w then (runesOf ln).length else w) w0 := by
  induction lines with
  | nil => intro w0; simp
  | cons l ls ih =>
    intro w0
    simp only [List.foldl_cons, List.mem_cons, forall_eq_or_imp]
    obtain ⟨h1, h2⟩ := ih (if (runesOf l).length > w0 then (runesOf l).length else w0)
    refine ⟨?_, ?_, h2⟩
    · by_cases hgt : (runesOf l).length > w0 <;> simp only [hgt, if_true, if_false] at h1 ⊢ <;>
        omega
    · by_cases hgt : (runesOf l).length > w0 <;> simp only [hgt, if_true, if_false] at h1 ⊢ <;>
        omega

/-- No line has more runes than the width. -/
theorem gridWidth_ge (lines : List (List Nat)) (ln : List Nat) (h : ln ∈ lines) :
    (runesOf ln).length ≤ gridWidth lines :=
  (foldl_width_ge lines 0).2 ln h

/-- A padded row has the width. -/
theorem padRow_length (w : Nat) (ln : List Nat) (h : (runesOf ln).length ≤ w) :
    (padRow w ln).length = w := by
  unfold padRow
  split_ifs with hlt
  · simp; omega
  · omega

/-- The grid has one row per line. -/
theorem buildGrid_length (lines : List (List Nat)) : (buildGrid lines).length = lines.length := by
  simp [buildGrid]

/-- Every row of the grid has the width. -/
theorem buildGrid_row_length (lines : List (List Nat)) (row : List Nat)
    (h : row ∈ buildGrid lines) : row.length = gridWidth lines := by
  obtain ⟨ln, hln, rfl⟩ := List.mem_map.mp h
  exact padRow_length _ ln (gridWidth_ge lines ln hln)

/-- Going through a row by index is going through the row. -/
theorem map_range_getD (f : Nat → List Nat) (row : List Nat) :
    (List.range row.length).map (fun x => f (row.getD x 0)) = row.map f := by
  apply List.ext_getElem
  · simp
  · intro i h1 h2
    simp only [List.length_map, List.length_range] at h1
    simp [List.getD_eq_getElem?_getD, List.getElem?_eq_getElem h1]

/-- Going through the grid by row index is going through its rows. -/
theorem map_range_rows (g : List Nat → List Nat) (grid : List (List Nat)) :
    (List.range grid.length).map (fun y => g (grid.getD y [])) = grid.map g := by
  apply List.ext_getElem
  · simp
  · intro i h1 h2
    simp only [List.length_map, List.length_range] at h1
    simp [List.getD_eq_getElem?_getD, List.getElem?_eq_getElem h1]

/-- A frame whose cells do not depend on their position, over a grid whose rows
all have the width `w`: row by row, cell by cell, CR LF between two rows. -/
theorem renderFrame_uniform (f : Nat → List Nat) (grid : List (List Nat)) (w : Nat)
    (hw : ∀ row ∈ grid, row.length = w) :
    renderFrame (fun _ _ orig => f orig) grid grid.length w =
      List.intercalate (lit "\r\n") (grid.map (fun row => (row.map f).flatten)) := by
  rw [renderFrame_eq]
  congr 1
  rw [← map_range_rows (fun row => (row.map f).flatten) grid]
  apply List.map_congr_left
  intro y hy
  have hy' : y < grid.length := List.mem_range.mp hy
  have hrow : (grid.getD y []).length = w := by
    rw [List.getD_eq_getElem _ _ hy']
    exact hw _ (List.getElem_mem hy')
  simp only [cellAt]
  rw [← hrow, map_range_getD]

/-- A frame loop appends the events of its passes, in order. -/
theorem frameStep_trace (paint : Nat → Nat → Nat → Nat → List Nat) (grid : List (List Nat))
    (h wd : Nat) (offsetX offsetY : Int) (steps : List Nat) :
    ∀ w : World,
      (steps.foldl (frameStep paint grid h wd offsetX offsetY) w).trace =
        w.trace ++ (steps.map (frameEvents paint grid h wd offsetX offsetY)).flatten := by
  induction steps with
  | nil => intro w; simp
  | cons s steps ih =>
    intro w
    rw [List.foldl_cons, ih]
    simp [frameStep, frameEvents, moveCursorAbs, World.emit, World.pause]

/-- The trace of `animateHearts`: the frames of the forward pass, the fully
replaced frame, the pause of 300 ms, the frames of the fade pass. -/
theorem animateHearts_trace (template : List Nat) (w : World) (offsetX offsetY : Int) :
    (animateHearts template w offsetX offsetY).trace =
      w.trace ++
      ((List.range ((templateLines template).length +
            gridWidth (templateLines template) + 1)).map
          (frameEvents paintForward (buildGrid (templateLines template))
            (templateLines template).length
            (gridWidth (templateLines template)) offsetX offsetY)).flatten ++
      [Event.write
          (lit "\x1b[" ++ fmtInt (offsetY + 1) ++ lit ";" ++ fmtInt (offsetX + 1) ++ lit "H"),
        Event.write (renderFrame paintFinal (buildGrid (templateLines template))
          (templateLines template).length
          (gridWidth (templateLines template))),
        Event.sleep (300 * Millisecond)] ++
      ((List.range ((templateLines template).length +
            gridWidth (templateLines template) + 1)).map
          (frameEvents paintFade (buildGrid (templateLines template))
            (templateLines template).length
            (gridWidth (templateLines template)) offsetX offsetY)).flatten := by
  unfold animateHearts
  have h1 : List.range 1 = [0] := rfl
  simp only [h1, List.foldl_cons, List.foldl_nil, frameStep_trace]
  simp [moveCursorAbs, World.emit, World.pause, frameStep_trace]

/-- C7: the frame `animateHearts` writes between the frames of the forward pass
and the pause before the fade pass is, for every template, the padded grid row
by row with CR LF between two rows and none after the last, a cell holding the
pink heart written as the blue heart and every other cell `c` as `string(c)`. -/
theorem animateHearts_final_frame (template : List Nat) (w : World) (offsetX offsetY : Int) :
    (animateHearts template w offsetX offsetY).trace =
      w.trace ++
      ((List.range ((templateLines template).length + gridWidth (templateLines template) + 1)).map
          (frameEvents paintForward (buildGrid (templateLines template))
            (templateLines template).length (gridWidth (templateLines template))
            offsetX offsetY)).flatten ++
      [Event.write
          (lit "\x1b[" ++ fmtInt (offsetY + 1) ++ lit ";" ++ fmtInt (offsetX + 1) ++ lit "H"),
        Event.write
          (List.intercalate (lit "\r\n")
            ((buildGrid (templateLines template)).map
              (fun row =>
                (row.map
                  (fun c => if c = pinkHeart then encodeRune blueHeart else encodeRune c)).flatten))),
        Event.sleep (300 * Millisecond)] ++
      ((List.range ((templateLines template).length + gridWidth (templateLines template) + 1)).map
          (frameEvents paintFade (buildGrid (templateLines template))
            (templateLines template).length (gridWidth (templateLines template))
            offsetX offsetY)).flatten := by
  have hf := renderFrame_uniform
    (fun c => if c = pinkHeart then encodeRune blueHeart else encodeRune c)
    (buildGrid (templateLines template)) (gridWidth (templateLines template))
    (buildGrid_row_length (templateLines template))
  rw [buildGrid_length] at hf
  rw [← hf]
  exact animateHearts_trace template w offsetX offsetY

/-! ## Typewriter effect -/

/-- The bytes of two traces in a row. -/
theorem writtenBytes_append (xs ys : List Event) :
    writtenBytes (xs ++ ys) = writtenBytes xs ++ writtenBytes ys := by
  induction xs with
  | nil => rfl
  | cons e xs ih => cases e <;> simp [writtenBytes, ih]

/-- The step of `typewriterEffect` on a visible ASCII glyph with delay 0. -/
theorem typewriterStep_visible (len idx r : Nat) (w : World) (hr : 33 ≤ r ∧ r ≤ 126) :
    typewriterStep len 0 w (idx, r) =
      if idx + 1 < len then
        { w with trace := w.trace ++ [Event.write [r], Event.write [95], Event.write [8, 32, 8]] }
      else { w with trace := w.trace ++ [Event.write [r]] } := by
  have he : encodeRune r = [r] := by simp [encodeRune]; omega
  have h1 : lit "_" = [95] := by decide
  have h2 : lit "\x08 \x08" = [8, 32, 8] := by decide
  have h32 : r ≥ 32 := by omega
  unfold typewriterStep
  simp only [he, h1, h2, lt_self_iff_false, false_and, decide_False, Bool.false_eq_true,
    if_false, h32, hr.2, true_and]
  by_cases hlt : idx + 1 < len
  · have : ((idx : Nat) : Int) < (len : Int) - 1 := by omega
    simp [hlt, this, World.emit]
  · have : ¬ (((idx : Nat) : Int) < (len : Int) - 1) := by omega
    simp [hlt, this, World.emit]

/-- The loop of `typewriterEffect` over visible ASCII glyphs with delay 0,
started at byte offset `idx`. -/
theorem typewriter_fold_visible (bs : List Nat) :
    ∀ (idx len : Nat) (w : World) (hne : bs ≠ []), (∀ b ∈ bs, 33 ≤ b ∧ b ≤ 126) →
      idx + bs.length = len →
      (bs.enumFrom idx).foldl (typewriterStep len 0) w =
        { w with trace := w.trace ++
            (bs.dropLast.map
              (fun c => [Event.write [c], Event.write [95], Event.write [8, 32, 8]])).flatten ++
            [Event.write [bs.getLast hne]] } := by
  induction bs with
  | nil => intro idx len w hne; exact absurd rfl hne
  | cons b bs ih =>
    intro idx len w hne hb hlen
    cases bs with
    | nil =>
      have : ¬ idx + 1 < len := by simp at hlen; omega
      simp [typewriterStep_visible len idx b w (hb b (by simp)), this]
    | cons b' bs =>
      have hlt : idx + 1 < len := by simp at hlen; omega
      rw [List.enumFrom_cons, List.foldl_cons,
        typewriterStep_visible len idx b w (hb b (by simp)), if_pos hlt,
        ih (idx + 1) len _ (by simp) (fun x hx => hb x (by simp [hx]))
          (by simp at hlen ⊢; omega)]
      simp

/-- C8: for a non-empty text of visible ASCII glyphs (33..126) and delay 0,
`typewriterEffect` writes, for each character but the last, the character, an
underscore and backspace-space-backspace, then the last character alone; it
does not sleep and leaves the rest of the world alone.  For `"ab"` the bytes
written are `a`, `_`, backspace, space, backspace, `b`. -/
theorem typewriterEffect_visible (w : World) (text : List Nat) (hne : text ≠ [])
    (hv : ∀ b ∈ text, 33 ≤ b ∧ b ≤ 126) :
    typewriterEffect w text 0 =
      { w with trace := w.trace ++
          (text.dropLast.map
            (fun c => [Event.write [c], Event.write [95], Event.write [8, 32, 8]])).flatten ++
          [Event.write [text.getLast hne]] } ∧
    writtenBytes (typewriterEffect w text 0).trace =
      writtenBytes w.trace ++ (text.dropLast.map (fun c => [c, 95, 8, 32, 8])).flatten ++
        [text.getLast hne] ∧
    writtenBytes (typewriterEffect ⟨[], GoError.eof, [], []⟩ (lit "ab") 0).trace =
      [97, 95, 8, 32, 8, 98] := by
  have hmain : typewriterEffect w text 0 =
      { w with trace := w.trace ++
          (text.dropLast.map
            (fun c => [Event.write [c], Event.write [95], Event.write [8, 32, 8]])).flatten ++
          [Event.write [text.getLast hne]] } := by
    unfold typewriterEffect rangeString
    rw [rangeFrom_ascii text _ 0 (fun b hb => by have := hv b hb; omega) (le_refl _)]
    exact typewriter_fold_visible text 0 text.length w hne hv (by simp)
  refine ⟨hmain, ?_, by decide⟩
  rw [hmain]
  simp only [writtenBytes_append, writtenBytes, List.append_nil]
  congr 2
  generalize text.dropLast = l
  induction l with
  | nil => rfl
  | cons c l ih => simp [writtenBytes_append, writtenBytes, ih]

/-- C8 at `"ab"`. -/
theorem typewriterEffect_visible_witness :
    (lit "ab" ≠ [] ∧ ∀ b ∈ lit "ab", 33 ≤ b ∧ b ≤ 126) ∧
    (typewriterEffect ⟨[], GoError.eof, [], [5]⟩ (lit "ab") 0).trace =
      [Event.write [97], Event.write [95], Event.write [8, 32, 8], Event.write [98]] ∧
    (typewriterEffect ⟨[], GoError.eof, [], [5]⟩ (lit "ab") 0).rand = [5] :=
  ⟨⟨by decide, by decide⟩,
    by
      have h := (typewriterEffect_visible ⟨[], GoError.eof, [], [5]⟩ (lit "ab") (by decide)
        (by decide)).1
      rw [h]
      exact ⟨by decide, rfl⟩⟩

/-- C9 (the code at the failing input): for the text `"é"` (two bytes, one code
point, byte offset 0, while `len(text) - 1` is 1) and a delay of 50 ms the code
sleeps after the last code point. -/
theorem typewriterEffect_sleeps_after_last :
    rangeString [0xC3, 0xA9] = [(0, 233)] ∧
    (typewriterEffect ⟨[], GoError.eof, [], [7]⟩ [0xC3, 0xA9] (50 * Millisecond)).trace =
      [Event.write [0xC3, 0xA9], Event.sleep (57 * Millisecond)] ∧
    (typewriterEffect ⟨[], GoError.eof, [], [7]⟩ (lit "e") (50 * Millisecond)).trace =
      [Event.write [101]] := by
  decide

/-- C10 (the code at the failing input): for the text `"a b"` the code writes an
underscore and backspace-space-backspace after the space. -/
theorem typewriterEffect_underlines_space :
    (typewriterEffect ⟨[], GoError.eof, [], []⟩ (lit "a b") 0).trace =
      [Event.write [97], Event.write [95], Event.write [8, 32, 8],
        Event.write [32], Event.write [95], Event.write [8, 32, 8], Event.write [98]] ∧
    (typewriterEffect ⟨[], GoError.eof, [], [7, 7, 7]⟩ (lit "a\r\n b") (50 * Millisecond)).trace =
      [Event.write [97], Event.write [95], Event.sleep (57 * Millisecond), Event.write [8, 32, 8],
        Event.write [13], Event.write [10],
        Event.write [32], Event.write [95], Event.write [8, 32, 8], Event.write [98]] := by
  decide

/-! ## Canvas: what the cursor primitives write -/

theorem log_nil (w : World) : w.log [] = w := by
  simp [World.log]

theorem log_log (w : World) (xs ys : List Event) : (w.log xs).log ys = w.log (xs ++ ys) := by
  simp [World.log]

theorem emit_eq_log (w : World) (bs : List Nat) : w.emit bs = w.log [Event.write bs] := rfl

theorem pause_eq_log (w : World) (ns : Int) : w.pause ns = w.log [Event.sleep ns] := rfl

theorem moveCursorRel_eq_log (w : World) (x y : Int) :
    moveCursorRel w x y = w.log (relMoveEvents x y) := by
  unfold moveCursorRel relMoveEvents
  simp only
  split_ifs <;> simp [World.log, World.emit]

theorem clearLinesStep_fold (n : Int) (m : Nat) :
    ∀ w : World, (m : Int) ≤ n - 1 →
      (List.range m).foldl (clearLinesStep n) w =
        w.log (List.replicate m
          [Event.write (lit "\x1b[2K\r"), Event.write (lit "\x1b[1B")]).flatten := by
  induction m with
  | zero => intro w _; simp [log_nil]
  | succ m ih =>
    intro w hm
    have hlt : (m : Int) < n - 1 := by push_cast at hm; omega
    rw [List.range_succ, List.foldl_append, ih w (by omega)]
    simp only [List.foldl_cons, List.foldl_nil, clearLinesStep, clearLine, hlt, if_true,
      moveCursorRel_eq_log, emit_eq_log, log_log]
    congr 1
    have h1 : relMoveEvents 0 1 = [Event.write (lit "\x1b[1B")] := by decide
    rw [h1, List.replicate_succ', List.flatten_append]
    simp

/-- What `clearLinesRel(channel, n)` writes for `n ≥ 1`. -/
theorem clearLinesRel_eq_log (w : World) (n : Int) (hn : 1 ≤ n) :
    clearLinesRel w n =
      w.log ((List.replicate (n.toNat - 1)
          [Event.write (lit "\x1b[2K\r"), Event.write (lit "\x1b[1B")]).flatten ++
        [Event.write (lit "\x1b[2K\r")] ++ relMoveEvents 0 (-(n - 1))) := by
  obtain ⟨k, hk⟩ : ∃ k : Nat, n.toNat = k + 1 := ⟨n.toNat - 1, by omega⟩
  have hkn : (k : Int) = n - 1 := by omega
  unfold clearLinesRel
  rw [hk, List.range_succ, List.foldl_append, clearLinesStep_fold n k _ (by omega)]
  have hnot : ¬ ((k : Int) < n - 1) := by omega
  simp only [List.foldl_cons, List.foldl_nil, clearLinesStep, clearLine, hnot, if_false,
    moveCursorRel_eq_log, emit_eq_log, log_log, Nat.add_sub_cancel, List.append_assoc]

/-! ## Heart animation: the grid and the two passes -/

/-- `strings.Split` never returns an empty slice. -/
theorem splitLines_ne_nil (s : List Nat) : splitLines s ≠ [] := by
  induction s with
  | nil => simp [splitLines]
  | cons b bs ih =>
    unfold splitLines
    split_ifs
    · simp
    · cases h : splitLines bs with
      | nil => exact absurd h ih
      | cons l ls => simp

/-- The running maximum of the width loop is its start value or the rune count of
a line. -/
theorem foldl_width_attained (lines : List (List Nat)) :
    ∀ w0 : Nat,
      lines.foldl (fun w ln => if (runesOf ln).length > w then (runesOf ln).length else w) w0 = w0 ∨
      ∃ ln ∈ lines, (runesOf ln).length =
        lines.foldl (fun w ln => if (runesOf ln).length > w then (runesOf ln).length else w) w0 := by
  induction lines with
  | nil => intro w0; exact Or.inl rfl
  | cons l ls ih =>
    intro w0
    simp only [List.foldl_cons, List.mem_cons, exists_eq_or_imp]
    rcases ih (if (runesOf l).length > w0 then (runesOf l).length else w0) with h | ⟨ln, hln, h⟩
    · by_cases hgt : (runesOf l).length > w0
      · simp only [hgt, if_true] at h ⊢
        exact Or.inr (Or.inl h.symm)
      · simp only [hgt, if_false] at h ⊢
        exact Or.inl h
    · exact Or.inr (Or.inr ⟨ln, hln, h⟩)

/-- The width is the rune count of some line, when there is a line. -/
theorem gridWidth_attained (lines : List (List Nat)) (hne : lines ≠ []) :
    ∃ ln ∈ lines, (runesOf ln).length = gridWidth lines := by
  rcases foldl_width_attained lines 0 with h | h
  · obtain ⟨l, ls, rfl⟩ := List.exists_cons_of_ne_nil hne
    refine ⟨l, by simp, ?_⟩
    have := gridWidth_ge (l :: ls) l (by simp)
    unfold gridWidth at this ⊢
    omega
  · exact h

/-- A padded row is the runes of its line followed by spaces. -/
theorem padRow_eq (w : Nat) (ln : List Nat) :
    padRow w ln = runesOf ln ++ List.replicate (w - (runesOf ln).length) 32 := by
  unfold padRow
  split_ifs with h
  · rfl
  · have : w - (runesOf ln).length = 0 := by omega
    simp [this]

/-- Inside the grid, `grid[y][x]` is the element at `x` of the row at `y`. -/
theorem cellAt_in_bounds (grid : List (List Nat)) (w y x : Nat)
    (hw : ∀ row ∈ grid, row.length = w) (hy : y < grid.length) (hx : x < w) :
    ∃ row c, grid[y]? = some row ∧ row[x]? = some c ∧ cellAt grid y x = c := by
  have hrow : (grid[y]).length = w := hw _ (List.getElem_mem hy)
  refine ⟨grid[y], (grid[y])[x], List.getElem?_eq_getElem hy,
    List.getElem?_eq_getElem (by omega), ?_⟩
  simp [cellAt, List.getD_eq_getElem?_getD, List.getElem?_eq_getElem hy,
    List.getElem?_eq_getElem (show x < (grid[y]).length by omega)]

/-- C16: for every template, the grid `animateHearts` builds has one row per
template line; its width is the largest rune count of a line (no line has more,
some line has exactly that many); every row has exactly that length and is the
runes of its line followed only by spaces; and every access `grid[y][x]` with
`y < h`, `x < w` finds a row and a cell (it is in bounds). -/
theorem buildGrid_rectangular (template : List Nat) :
    (buildGrid (templateLines template)).length = (templateLines template).length ∧
    (∀ ln ∈ templateLines template, (runesOf ln).length ≤ gridWidth (templateLines template)) ∧
    (∃ ln ∈ templateLines template, (runesOf ln).length = gridWidth (templateLines template)) ∧
    (∀ row ∈ buildGrid (templateLines template),
      row.length = gridWidth (templateLines template)) ∧
    (∀ i, i < (templateLines template).length →
      (buildGrid (templateLines template))[i]? =
        some (runesOf ((templateLines template).getD i []) ++
          List.replicate
            (gridWidth (templateLines template) -
              (runesOf ((templateLines template).getD i [])).length) 32)) ∧
    (∀ y x, y < (templateLines template).length → x < gridWidth (templateLines template) →
      ∃ row c, (buildGrid (templateLines template))[y]? = some row ∧ row[x]? = some c ∧
        cellAt (buildGrid (templateLines template)) y x = c) := by
  refine ⟨buildGrid_length _, gridWidth_ge _, gridWidth_attained _ (splitLines_ne_nil _),
    buildGrid_row_length _, ?_, ?_⟩
  · intro i hi
    simp [buildGrid, List.getElem?_map, List.getElem?_eq_getElem hi, padRow_eq,
      List.getD_eq_getElem?_getD]
  · intro y x hy hx
    exact cellAt_in_bounds _ _ y x (buildGrid_row_length _) (by rw [buildGrid_length]; exact hy) hx

/-- The frames of the forward pass: for every step, row by row and cell by cell,
a cell is written as the blue heart when it holds the pink heart and lies on or
before the diagonal `step`, and as `string` of its content otherwise. -/
theorem renderFrame_forward (grid : List (List Nat)) (h w step : Nat) :
    renderFrame (paintForward step) grid h w =
      List.intercalate (lit "\r\n")
        ((List.range h).map (fun y =>
          ((List.range w).map (fun x =>
            if x + y ≤ step ∧ cellAt grid y x = pinkHeart then encodeRune blueHeart
            else encodeRune (cellAt grid y x))).flatten)) := by
  rw [renderFrame_eq]
  simp only [paintForward, Nat.add_comm]

/-- The frames of the fade pass, cell by cell. -/
theorem renderFrame_fade (grid : List (List Nat)) (h w step : Nat) :
    renderFrame (paintFade step) grid h w =
      List.intercalate (lit "\r\n")
        ((List.range h).map (fun y =>
          ((List.range w).map (fun x =>
            if cellAt grid y x = pinkHeart then
              (if x + y ≤ step then encodeRune pinkHeart else encodeRune blueHeart)
            else encodeRune (cellAt grid y x))).flatten)) := by
  rw [renderFrame_eq]
  congr 1
  apply List.map_congr_left
  intro y _
  congr 1
  apply List.map_congr_left
  intro x _
  simp only [paintFade, Nat.add_comm y x]
  by_cases hp : cellAt grid y x = pinkHeart <;> by_cases hs : x + y ≤ step <;> simp [hp, hs]

/-- The last frame of the fade pass is the grid itself. -/
theorem renderFrame_fade_last (grid : List (List Nat)) (w : Nat)
    (hw : ∀ row ∈ grid, row.length = w) :
    renderFrame (paintFade (grid.length + w)) grid grid.length w =
      List.intercalate (lit "\r\n") (grid.map stringOfRunes) := by
  have h1 : renderFrame (paintFade (grid.length + w)) grid grid.length w =
      renderFrame (fun _ _ orig => encodeRune orig) grid grid.length w := by
    rw [renderFrame_eq, renderFrame_eq]
    congr 1
    apply List.map_congr_left
    intro y hy
    congr 1
    apply List.map_congr_left
    intro x hx
    have hy' := List.mem_range.mp hy
    have hx' := List.mem_range.mp hx
    have hle : y + x ≤ grid.length + w := by omega
    simp only [paintFade, hle, true_and]
    split_ifs with hp
    · rw [hp]
    · rfl
  rw [h1, renderFrame_uniform encodeRune grid w hw]
  rfl

/-- Only the blue heart is written as the blue heart. -/
theorem encodeRune_eq_blueHeart (c : Nat) :
    encodeRune c = encodeRune blueHeart ↔ c = blueHeart := by
  constructor
  · intro h
    have h1 := decodeRune_encode c []
    have h2 := decodeRune_encode blueHeart []
    rw [h] at h1
    have h3 : fixRune c = fixRune blueHeart := by
      have := h1.symm.trans h2
      exact (Prod.mk.inj this).1
    have h4 : fixRune blueHeart = blueHeart := by decide
    rw [h4] at h3
    unfold fixRune at h3
    split_ifs at h3
    · exact h3
    · exact absurd h3 (by decide)
  · intro h; rw [h]

/-- In a frame of the forward pass a cell is written as the blue heart exactly
when it is a pink heart on or before the diagonal, or is a blue heart itself. -/
theorem paintForward_blue_iff (step y x c : Nat) :
    paintForward step y x c = encodeRune blueHeart ↔
      (x + y ≤ step ∧ c = pinkHeart) ∨ c = blueHeart := by
  unfold paintForward
  rw [Nat.add_comm y x]
  split_ifs with h
  · exact ⟨fun _ => Or.inl h, fun _ => rfl⟩
  · rw [encodeRune_eq_blueHeart]
    exact ⟨fun hc => Or.inr hc, fun hc => hc.resolve_left h⟩

/-- C17 as stated fails: over the template of one row holding a pink heart and
then a blue heart, the frame of the forward pass for step 0 writes the blue heart
for the cell at column 1, row 0, although its original content is the blue heart,
not the pink one, and `x + y = 1` is above the step. -/
theorem forward_pass_blue_cell :
    buildGrid (templateLines [240, 159, 169, 183, 240, 159, 146, 153]) =
      [[pinkHeart, blueHeart]] ∧
    (animateHearts [240, 159, 169, 183, 240, 159, 146, 153]
        ⟨[], GoError.eof, [], []⟩ 0 0).trace.take 3 =
      [Event.write (lit "\x1b[1;1H"),
        Event.write ([240, 159, 146, 153] ++ [240, 159, 146, 153]),
        Event.sleep (80 * Millisecond)] ∧
    encodeRune blueHeart = [240, 159, 146, 153] ∧
    paintForward 0 0 1 blueHeart = encodeRune blueHeart ∧
    blueHeart ≠ pinkHeart ∧ ¬ (1 + 0 ≤ 0) ∧
    ¬ (∀ step y x c : Nat,
        paintForward step y x c = encodeRune blueHeart ↔ (c = pinkHeart ∧ x + y ≤ step)) := by
  refine ⟨by decide, by decide, by decide, by decide, by decide, by decide, ?_⟩
  intro h
  exact absurd ((h 0 0 1 blueHeart).mp (by decide)).1 (by decide)

/-- C17, amended: the forward pass of `animateHearts` writes `h + w + 1` frames,
one for each `step = 0, 1, ..., h + w` in this order, each after a cursor
placement and followed by a sleep of 80 ms; in the frame for `step` the cell at
column `x`, row `y` is written as the blue heart when it holds the pink heart and
`x + y ≤ step`, and as `string` of its own content otherwise.  So a cell is
written as the blue heart if and only if it is such a pink cell or holds the blue
heart itself; among the cells that do not hold the blue heart, if and only if it
is such a pink cell.  After these frames come the fully replaced frame, the pause
and the fade pass. -/
theorem animateHearts_forward_pass (template : List Nat) (w : World) (offsetX offsetY : Int) :
    (animateHearts template w offsetX offsetY).trace =
      w.trace ++
      ((List.range ((templateLines template).length + gridWidth (templateLines template) + 1)).map
        (fun step =>
          [Event.write
              (lit "\x1b[" ++ fmtInt (offsetY + 1) ++ lit ";" ++ fmtInt (offsetX + 1) ++ lit "H"),
            Event.write
              (List.intercalate (lit "\r\n")
                ((List.range (templateLines template).length).map (fun y =>
                  ((List.range (gridWidth (templateLines template))).map (fun x =>
                    if x + y ≤ step ∧ cellAt (buildGrid (templateLines template)) y x = pinkHeart
                    then encodeRune blueHeart
                    else encodeRune (cellAt (buildGrid (templateLines template)) y x))).flatten))),
            Event.sleep (80 * Millisecond)])).flatten ++
      [Event.write
          (lit "\x1b[" ++ fmtInt (offsetY + 1) ++ lit ";" ++ fmtInt (offsetX + 1) ++ lit "H"),
        Event.write (renderFrame paintFinal (buildGrid (templateLines template))
          (templateLines template).length (gridWidth (templateLines template))),
        Event.sleep (300 * Millisecond)] ++
      ((List.range ((templateLines template).length + gridWidth (templateLines template) + 1)).map
        (frameEvents paintFade (buildGrid (templateLines template))
          (templateLines template).length (gridWidth (templateLines template))
          offsetX offsetY)).flatten ∧
    ((List.range ((templateLines template).length + gridWidth (templateLines template) + 1)).map
        (fun step => renderFrame (paintForward step) (buildGrid (templateLines template))
          (templateLines template).length (gridWidth (templateLines template)))).length =
      (templateLines template).length + gridWidth (templateLines template) + 1 ∧
    (∀ (step y x c : Nat),
      paintForward step y x c = encodeRune blueHeart ↔
        (x + y ≤ step ∧ c = pinkHeart) ∨ c = blueHeart) ∧
    (∀ (step y x c : Nat), ¬ (x + y ≤ step ∧ c = pinkHeart) →
      paintForward step y x c = encodeRune c) ∧
    (∀ (step y x c : Nat), c ≠ blueHeart →
      (paintForward step y x c = encodeRune blueHeart ↔ c = pinkHeart ∧ x + y ≤ step)) := by
  refine ⟨?_, by simp, paintForward_blue_iff, ?_, ?_⟩
  · have h := animateHearts_trace template w offsetX offsetY
    have hf : frameEvents paintForward (buildGrid (templateLines template))
        (templateLines template).length (gridWidth (templateLines template)) offsetX offsetY =
        fun step => [Event.write
            (lit "\x1b[" ++ fmtInt (offsetY + 1) ++ lit ";" ++ fmtInt (offsetX + 1) ++ lit "H"),
          Event.write (renderFrame (paintForward step) (buildGrid (templateLines template))
            (templateLines template).length (gridWidth (templateLines template))),
          Event.sleep (80 * Millisecond)] := rfl
    rw [hf] at h
    simp only [renderFrame_forward] at h
    exact h
  · intro step y x c hc
    unfold paintForward
    rw [Nat.add_comm y x, if_neg hc]
  · intro step y x c hc
    rw [paintForward_blue_iff]
    exact ⟨fun h => (h.resolve_right hc).symm, fun h => Or.inl h.symm⟩

/-- The forward pass at the template of one row holding a pink heart and a space:
at step 0 the space at column 1 is written as itself, and the pink heart at
column 0 is written as the blue heart, being on the diagonal. -/
theorem animateHearts_forward_pass_witness :
    ¬ (1 + 0 ≤ 0 ∧ 32 = pinkHeart) ∧ paintForward 0 0 1 32 = encodeRune 32 ∧
    pinkHeart ≠ blueHeart ∧
    (paintForward 0 0 0 pinkHeart = encodeRune blueHeart ↔ pinkHeart = pinkHeart ∧ 0 + 0 ≤ 0) :=
  ⟨by decide,
    (animateHearts_forward_pass [240, 159, 169, 183, 32] ⟨[], GoError.eof, [], []⟩ 0 0).2.2.2.1
      0 0 1 32 (by decide),
    by decide,
    (animateHearts_forward_pass [240, 159, 169, 183, 32] ⟨[], GoError.eof, [], []⟩ 0 0).2.2.2.2
      0 0 0 pinkHeart (by decide)⟩

/-- C18: the fade pass of `animateHearts` writes one frame for each
`step = 0, ..., h + w`; in the frame for `step` a cell that holds the pink heart
is written as the pink heart when `x + y ≤ step` and as the blue heart
otherwise, every other cell as `string` of its content; a pink cell written pink
at `step` is written pink at every later step; and the last frame
(`step = h + w`) is the padded grid itself, rows joined by CR LF. -/
theorem animateHearts_fade_pass (template : List Nat) (w : World) (offsetX offsetY : Int) :
    (animateHearts template w offsetX offsetY).trace =
      w.trace ++
      ((List.range ((templateLines template).length + gridWidth (templateLines template) + 1)).map
        (frameEvents paintForward (buildGrid (templateLines template))
          (templateLines template).length (gridWidth (templateLines template))
          offsetX offsetY)).flatten ++
      [Event.write
          (lit "\x1b[" ++ fmtInt (offsetY + 1) ++ lit ";" ++ fmtInt (offsetX + 1) ++ lit "H"),
        Event.write (renderFrame paintFinal (buildGrid (templateLines template))
          (templateLines template).length (gridWidth (templateLines template))),
        Event.sleep (300 * Millisecond)] ++
      ((List.range ((templateLines template).length + gridWidth (templateLines template) + 1)).map
        (fun step =>
          [Event.write
              (lit "\x1b[" ++ fmtInt (offsetY + 1) ++ lit ";" ++ fmtInt (offsetX + 1) ++ lit "H"),
            Event.write
              (List.intercalate (lit "\r\n")
                ((List.range (templateLines template).length).map (fun y =>
                  ((List.range (gridWidth (templateLines template))).map (fun x =>
                    if cellAt (buildGrid (templateLines template)) y x = pinkHeart then
                      (if x + y ≤ step then encodeRune pinkHeart else encodeRune blueHeart)
                    else encodeRune (cellAt (buildGrid (templateLines template)) y x))).flatten))),
            Event.sleep (80 * Millisecond)])).flatten ∧
    (∀ (s s' y x : Nat), s ≤ s' →
      paintFade s y x pinkHeart = encodeRune pinkHeart →
      paintFade s' y x pinkHeart = encodeRune pinkHeart) ∧
    renderFrame
        (paintFade ((templateLines template).length + gridWidth (templateLines template)))
        (buildGrid (templateLines template)) (templateLines template).length
        (gridWidth (templateLines template)) =
      List.intercalate (lit "\r\n") ((buildGrid (templateLines template)).map stringOfRunes) := by
  refine ⟨?_, ?_, ?_⟩
  · have h := animateHearts_trace template w offsetX offsetY
    have hf : frameEvents paintFade (buildGrid (templateLines template))
        (templateLines template).length (gridWidth (templateLines template)) offsetX offsetY =
        fun step => [Event.write
            (lit "\x1b[" ++ fmtInt (offsetY + 1) ++ lit ";" ++ fmtInt (offsetX + 1) ++ lit "H"),
          Event.write (renderFrame (paintFade step) (buildGrid (templateLines template))
            (templateLines template).length (gridWidth (templateLines template))),
          Event.sleep (80 * Millisecond)] := rfl
    rw [hf] at h
    simp only [renderFrame_fade] at h
    exact h
  · intro s s' y x hss hp
    have hne : encodeRune blueHeart ≠ encodeRune pinkHeart := by decide
    by_cases hle : y + x ≤ s
    · have : y + x ≤ s' := by omega
      simp [paintFade, this]
    · simp [paintFade, hle] at hp
      exact absurd hp hne
  · have := renderFrame_fade_last (buildGrid (templateLines template))
      (gridWidth (templateLines template)) (buildGrid_row_length _)
    rw [buildGrid_length] at this
    exact this

/-! ## Session: the passes of the loop -/

/-- The greeting only writes. -/
theorem greeting_eq_log (a : Assets) (w : World) : greeting a w = w.log (greetingEvents a) := by
  have h2 : (List.replicate 2 (lit "\r\n")).flatten = lit "\r\n\r\n" := by decide
  simp only [greeting, clearScreen, printNewLines, printMulti, emit_eq_log, log_log, h2,
    greetingEvents, List.cons_append, List.nil_append]

/-- The prompt only writes. -/
theorem prompt_eq_log (a : Assets) (w : World) : prompt a w = w.log (promptEvents a) := by
  have h : lit "\x1b[" ++ fmtInt (10 + 1) ++ lit ";" ++ fmtInt (0 + 1) ++ lit "H"
      = lit "\x1b[11;1H" := by decide
  simp only [prompt, moveCursorAbs, printMulti, moveCursorRel_eq_log, emit_eq_log, log_log, h,
    promptEvents, List.cons_append, List.nil_append]

/-- The cursor placement after a line was read. -/
theorem moveCursorAbs_row17 (w : World) :
    moveCursorAbs w 0 17 = w.log [Event.write (lit "\x1b[18;1H")] := by
  have h : lit "\x1b[" ++ fmtInt (17 + 1) ++ lit ";" ++ fmtInt (0 + 1) ++ lit "H"
      = lit "\x1b[18;1H" := by decide
  simp only [moveCursorAbs, emit_eq_log, h]

/-- The pass of the session loop after a failed read: `return`. -/
theorem sessionBody_abort (a : Assets) (w : World) (s : Session) (e : GoError)
    (herr : (readLineWithEcho (prompt a w)).err = some e) :
    sessionBody a w s = SessionFlow.abort (readLineWithEcho (prompt a w)).world s := by
  unfold sessionBody
  simp only [herr]

/-- The pass of the session loop on a line that is empty after trimming. -/
theorem sessionBody_nag (a : Assets) (w : World) (s : Session)
    (herr : (readLineWithEcho (prompt a w)).err = none)
    (hl : TrimSpace (readLineWithEcho (prompt a w)).line = []) :
    sessionBody a w s =
      SessionFlow.again ((readLineWithEcho (prompt a w)).world.log nagEvents) s := by
  unfold sessionBody
  have h7 : (1 : Int) ≤ 7 := by decide
  have hup : relMoveEvents 0 (-(7 - 1)) = [Event.write (lit "\x1b[6A")] := by decide
  simp only [herr, hl, if_true, moveCursorAbs_row17, clearLinesRel_eq_log _ 7 h7, emit_eq_log,
    log_log, hup, nagEvents]
  rfl

/-- The pass of the session loop on `exit` or `quit`: `break`. -/
theorem sessionBody_quit (a : Assets) (w : World) (s : Session)
    (herr : (readLineWithEcho (prompt a w)).err = none)
    (hl : TrimSpace (readLineWithEcho (prompt a w)).line = lit "exit" ∨
      TrimSpace (readLineWithEcho (prompt a w)).line = lit "quit") :
    sessionBody a w s =
      SessionFlow.leave
        ((readLineWithEcho (prompt a w)).world.log [Event.write (lit "\x1b[18;1H")]) s := by
  have hne : TrimSpace (readLineWithEcho (prompt a w)).line ≠ [] := by
    rcases hl with h | h <;> rw [h] <;> decide
  unfold sessionBody
  simp only [herr, hne, hl, if_true, if_false, moveCursorAbs_row17]

/-- The pass of the session loop on a wrong guess. -/
theorem sessionBody_rejected (a : Assets) (w : World) (s : Session)
    (herr : (readLineWithEcho (prompt a w)).err = none)
    (h1 : TrimSpace (readLineWithEcho (prompt a w)).line ≠ [])
    (h2 : TrimSpace (readLineWithEcho (prompt a w)).line ≠ lit "exit")
    (h3 : TrimSpace (readLineWithEcho (prompt a w)).line ≠ lit "quit")
    (h4 : TrimSpace (readLineWithEcho (prompt a w)).line ≠ lit "<33") :
    sessionBody a w s =
      SessionFlow.again
        (rejectedGuess
          ((readLineWithEcho (prompt a w)).world.log [Event.write (lit "\x1b[18;1H")]) s).1
        (rejectedGuess
          ((readLineWithEcho (prompt a w)).world.log [Event.write (lit "\x1b[18;1H")]) s).2 := by
  unfold sessionBody
  simp only [herr, h1, h2, h3, h4, if_true, if_false, moveCursorAbs_row17, or_self, ne_eq,
    not_false_eq_true]

/-- The pass of the session loop on the secret token. -/
theorem sessionBody_success (a : Assets) (w : World) (s : Session)
    (herr : (readLineWithEcho (prompt a w)).err = none)
    (hl : TrimSpace (readLineWithEcho (prompt a w)).line = lit "<33") :
    sessionBody a w s =
      SessionFlow.leave
        (successScript a
          ((readLineWithEcho (prompt a w)).world.log [Event.write (lit "\x1b[18;1H")])) s := by
  have h1 : lit "<33" ≠ [] := by decide
  have h2 : lit "<33" ≠ lit "exit" := by decide
  have h3 : lit "<33" ≠ lit "quit" := by decide
  unfold sessionBody
  simp only [herr, hl, h1, h2, h3, if_true, if_false, moveCursorAbs_row17, or_self, ne_eq,
    not_true_eq_false]

/-- A read of printable runes followed by a terminator: the line, the nil error
and the echo, however the channel delivers the input. -/
theorem readLineWithEcho_line (v : World) (s rest : List Nat) (t : Nat)
    (hs : ∀ r ∈ s, 32 ≤ r ∧ r ≠ 127) (ht : t = 13 ∨ t = 10)
    (hin : v.incoming.flatten = s ++ t :: rest) :
    (readLineWithEcho v).line = stringOfRunes s ∧ (readLineWithEcho v).err = none ∧
      (readLineWithEcho v).world.trace = v.trace ++ s.map (fun r => Event.write (encodeRune r)) := by
  have h := readLineLoop_printable s (v.incoming.flatten.length + 1) [] [] v t rest hs ht
    (by simpa using hin) (by rw [hin]; simp)
  exact ⟨by simpa [readLineWithEcho] using h.1, h.2.1, h.2.2⟩

/-- The session up to its first read: greeting and prompt. -/
theorem interactiveSession_first_pass (a : Assets) (w : World) (session : Session) :
    interactiveSession a w session =
      match sessionBody a (w.log (greetingEvents a)) session with
      | SessionFlow.again w' session' => sessionLoop a w.incoming.flatten.length w' session'
      | SessionFlow.leave w' session' => (w'.emit (lit "\r\n\r\nSee you soon!\r\n"), session')
      | SessionFlow.abort w' session' => (w', session') := by
  unfold interactiveSession
  rw [greeting_eq_log]
  rfl

/-- C11: when the first line of a session, typed as printable runes `s` and ended
by CR or LF, is `quit` or `exit` after trimming white space, `interactiveSession`
leaves the loop at once: after greeting, prompt and the echo of `s` it writes
only the cursor placement to row 17 and the farewell `See you soon!` (no decoy,
no nag, nothing of the success script), and the session state is unchanged. -/
theorem quit_leaves_at_once (a : Assets) (w : World) (session : Session) (s rest : List Nat)
    (t : Nat) (hs : ∀ r ∈ s, 32 ≤ r ∧ r ≠ 127) (ht : t = 13 ∨ t = 10)
    (hin : w.incoming.flatten = s ++ t :: rest)
    (hq : TrimSpace (stringOfRunes s) = lit "quit" ∨ TrimSpace (stringOfRunes s) = lit "exit") :
    (interactiveSession a w session).1.trace =
      w.trace ++ greetingEvents a ++ promptEvents a ++
        s.map (fun r => Event.write (encodeRune r)) ++
        [Event.write (lit "\x1b[18;1H"), Event.write (lit "\r\n\r\nSee you soon!\r\n")] ∧
    (interactiveSession a w session).2 = session := by
  have hr := readLineWithEcho_line (prompt a (w.log (greetingEvents a))) s rest t hs ht
    (by rw [prompt_eq_log]; exact hin)
  have hq' : TrimSpace (readLineWithEcho (prompt a (w.log (greetingEvents a)))).line = lit "exit" ∨
      TrimSpace (readLineWithEcho (prompt a (w.log (greetingEvents a)))).line = lit "quit" := by
    rw [hr.1]; exact hq.symm
  rw [interactiveSession_first_pass, sessionBody_quit a _ session hr.2.1 hq']
  refine ⟨?_, rfl⟩
  show (readLineWithEcho (prompt a (w.log (greetingEvents a)))).world.trace ++
    [Event.write (lit "\x1b[18;1H")] ++ [Event.write (lit "\r\n\r\nSee you soon!\r\n")] = _
  rw [hr.2.2, prompt_eq_log]
  simp [World.log]

/-- C11 at the input `"  quit \r"` delivered in one read. -/
theorem quit_leaves_at_once_witness :
    ((∀ r ∈ lit "  quit ", 32 ≤ r ∧ r ≠ 127) ∧ ((13 : Nat) = 13 ∨ (13 : Nat) = 10) ∧
      (World.mk [lit "  quit \r"] GoError.eof [] []).incoming.flatten = lit "  quit " ++ 13 :: [] ∧
      (TrimSpace (stringOfRunes (lit "  quit ")) = lit "quit" ∨
        TrimSpace (stringOfRunes (lit "  quit ")) = lit "exit")) ∧
    (interactiveSession ⟨lit "<3", lit "<3", lit "> ", 2, -1⟩
        ⟨[lit "  quit \r"], GoError.eof, [], []⟩ newSession).1.trace =
      greetingEvents ⟨lit "<3", lit "<3", lit "> ", 2, -1⟩ ++
        promptEvents ⟨lit "<3", lit "<3", lit "> ", 2, -1⟩ ++
        [Event.write [32], Event.write [32], Event.write [113], Event.write [117],
          Event.write [105], Event.write [116], Event.write [32],
          Event.write (lit "\x1b[18;1H"), Event.write (lit "\r\n\r\nSee you soon!\r\n")] ∧
    (interactiveSession ⟨lit "<3", lit "<3", lit "> ", 2, -1⟩
        ⟨[lit "  quit \r"], GoError.eof, [], []⟩ newSession).2 = newSession :=
  ⟨⟨by decide, by decide, by decide, Or.inl (by decide)⟩,
    by
      have h := quit_leaves_at_once ⟨lit "<3", lit "<3", lit "> ", 2, -1⟩
        ⟨[lit "  quit \r"], GoError.eof, [], []⟩ newSession (lit "  quit ") [] 13
        (by decide) (by decide) (by decide) (Or.inl (by decide))
      exact ⟨h.1.trans (by decide), h.2⟩⟩

/-- A pass of the session loop that ends in `continue` is followed by the pass
on the world it left. -/
theorem sessionLoop_again (a : Assets) (fuel : Nat) (v v2 : World) (s s2 : Session)
    (h : sessionBody a v s = SessionFlow.again v2 s2) :
    sessionLoop a (fuel + 1) v s = sessionLoop a fuel v2 s2 := by
  simp only [sessionLoop, h]

/-- C12: when a line, typed as printable runes `s` and ended by CR or LF, is
empty after trimming, the pass of the session loop ends in `continue` with the
session state (so `LastSentIndex`) unchanged; after the prompt and the echo of
`s` it has written the cursor placement to row 17, seven cleared lines and the
nag `Please enter something!`, and no decoy; the next pass starts on that world
and writes the same prompt again: the cursor to column 0, row 10 (ESC `[11;1H`),
the prompt box and the move into the input field.  For a session that receives
only `"\n"` this gives: greeting, prompt, nag, prompt, and the session state
as it was. -/
theorem empty_line_nags (a : Assets) (v : World) (session : Session) (s rest : List Nat)
    (t : Nat) (hs : ∀ r ∈ s, 32 ≤ r ∧ r ≠ 127) (ht : t = 13 ∨ t = 10)
    (hin : v.incoming.flatten = s ++ t :: rest) (he : TrimSpace (stringOfRunes s) = []) :
    (∃ v2, sessionBody a v session = SessionFlow.again v2 session ∧
      v2.trace = v.trace ++ promptEvents a ++ s.map (fun r => Event.write (encodeRune r)) ++
        nagEvents ∧
      (prompt a v2).trace = v2.trace ++ promptEvents a ∧
      ∀ fuel, sessionLoop a (fuel + 1) v session = sessionLoop a fuel v2 session) ∧
    (∀ u : World, moveCursorAbs u 0 10 = u.log [Event.write (lit "\x1b[11;1H")]) ∧
    (∀ u : World, prompt a u =
      moveCursorRel (printMulti (moveCursorAbs u 0 10) a.promptBox)
        a.promptBoxPromptRelativeOffsetX a.promptBoxPromptRelativeOffsetY ∧
      (prompt a u).trace = u.trace ++ promptEvents a) ∧
    (∀ (e : GoError) (tr : List Event) (rnd : List Nat),
      interactiveSession a ⟨[[10]], e, tr, rnd⟩ session =
        (⟨[], e, tr ++ greetingEvents a ++ promptEvents a ++ nagEvents ++ promptEvents a, rnd⟩,
          session)) := by
  have hr := readLineWithEcho_line (prompt a v) s rest t hs ht
    (by rw [prompt_eq_log]; exact hin)
  have hl : TrimSpace (readLineWithEcho (prompt a v)).line = [] := by rw [hr.1]; exact he
  have hb := sessionBody_nag a v session hr.2.1 hl
  refine ⟨⟨_, hb, ?_, ?_, fun fuel => sessionLoop_again a fuel v _ session session hb⟩, ?_, ?_, ?_⟩
  · show (readLineWithEcho (prompt a v)).world.trace ++ nagEvents = _
    rw [hr.2.2, prompt_eq_log]
    simp [World.log]
  · rw [prompt_eq_log]; rfl
  · intro u
    have h : lit "\x1b[" ++ fmtInt (10 + 1) ++ lit ";" ++ fmtInt (0 + 1) ++ lit "H"
        = lit "\x1b[11;1H" := by decide
    simp only [moveCursorAbs, emit_eq_log, h]
  · intro u
    exact ⟨rfl, by rw [prompt_eq_log]; rfl⟩
  · intro e tr rnd
    have hread1 := readLineWithEcho_leading_lf
      (prompt a ((World.mk [[10]] e tr rnd).log (greetingEvents a))) [] []
      (by rw [prompt_eq_log]; rfl)
    have hb1 := sessionBody_nag a ((World.mk [[10]] e tr rnd).log (greetingEvents a)) session
      (by rw [hread1]) (by rw [hread1]; exact (by decide : TrimSpace [] = []))
    rw [interactiveSession_first_pass, hb1]
    simp only [hread1]
    have hread2 : readLineWithEcho
        (prompt a ((World.mk [] e (tr ++ greetingEvents a ++ promptEvents a) rnd).log nagEvents)) =
        ⟨[], some e,
          ⟨[], e, tr ++ greetingEvents a ++ promptEvents a ++ nagEvents ++ promptEvents a, rnd⟩⟩ := by
      rw [prompt_eq_log]
      simp [readLineWithEcho, readLineLoop, readRune, World.log]
    have hb2 := sessionBody_abort a
      ((World.mk [] e (tr ++ greetingEvents a ++ promptEvents a) rnd).log nagEvents) session e
      (by rw [hread2])
    simp only [prompt_eq_log, World.log, List.append_assoc] at hb2 hread2 ⊢
    simp only [List.flatten_cons, List.flatten_nil, List.append_nil, List.length_singleton,
      sessionLoop, hb2, hread2]

/-- C12 at two spaces and CR: nothing is left after trimming. -/
theorem empty_line_nags_witness :
    ((∀ r ∈ [32, 32], 32 ≤ r ∧ r ≠ 127) ∧ ((13 : Nat) = 13 ∨ (13 : Nat) = 10) ∧
      (World.mk [[32, 32, 13]] GoError.eof [] []).incoming.flatten = [32, 32] ++ 13 :: [] ∧
      TrimSpace (stringOfRunes [32, 32]) = []) ∧
    ∃ v2, sessionBody ⟨lit "<3", lit "<3", lit "> ", 2, -1⟩
        ⟨[[32, 32, 13]], GoError.eof, [], []⟩ newSession = SessionFlow.again v2 newSession ∧
      v2.trace = promptEvents ⟨lit "<3", lit "<3", lit "> ", 2, -1⟩ ++
        [Event.write [32], Event.write [32]] ++ nagEvents :=
  ⟨⟨by decide, by decide, by decide, by decide⟩,
    by
      obtain ⟨v2, hb, htr, _⟩ := (empty_line_nags ⟨lit "<3", lit "<3", lit "> ", 2, -1⟩
        ⟨[[32, 32, 13]], GoError.eof, [], []⟩ newSession [32, 32] [] 13
        (by decide) (by decide) (by decide) (by decide)).1
      exact ⟨v2, hb, htr⟩⟩

/-- The read loop on input without terminator and interrupt code that the
channel ends after: the channel error. -/
theorem readLineLoop_exhausted (p : List Nat) :
    ∀ (fuel : Nat) (buffered buf : List Nat) (w : World),
      (∀ r ∈ p, r ≠ 13 ∧ r ≠ 10 ∧ r ≠ 3 ∧ r ≠ 4 ∧ r ≠ 24) →
      buffered ++ w.incoming.flatten = p → p.length + 1 ≤ fuel →
      (readLineLoop fuel buffered buf w).line = [] ∧
      (readLineLoop fuel buffered buf w).err = some w.closeErr := by
  induction p with
  | nil =>
    intro fuel buffered buf w _ hin hf
    obtain ⟨n, rfl⟩ : ∃ n, fuel = n + 1 := ⟨fuel - 1, by omega⟩
    rw [readLineLoop_end n buffered buf w hin]
    exact ⟨rfl, rfl⟩
  | cons x p ih =>
    intro fuel buffered buf w hp hin hf
    obtain ⟨n, rfl⟩ : ∃ n, fuel = n + 1 := ⟨fuel - 1, by simp at hf; omega⟩
    obtain ⟨b, ch, hb, heq⟩ := readLineLoop_step n buffered buf w x p hin
    obtain ⟨buf2, evs, hon⟩ := onRune_next x buf (hp x (by simp))
    rw [heq, hon]
    exact ih n b buf2 _ (fun r hr => hp r (by simp [hr])) (by simpa using hb)
      (by simp at hf; omega)

/-- C14 as stated fails: a session whose first read is interrupted (the user
types `a`, then Ctrl-C) returns without the farewell; the last thing written is
the echo of `a`. -/
theorem interrupt_without_farewell :
    (readLineWithEcho
        (prompt ⟨lit "<3", lit "<3", lit "> ", 2, -1⟩
          (greeting ⟨lit "<3", lit "<3", lit "> ", 2, -1⟩
            ⟨[[97, 3]], GoError.eof, [], []⟩))).err = some GoError.eof ∧
    Event.write (lit "\r\n\r\nSee you soon!\r\n") ∉
      (interactiveSession ⟨lit "<3", lit "<3", lit "> ", 2, -1⟩
        ⟨[[97, 3]], GoError.eof, [], []⟩ newSession).1.trace ∧
    (interactiveSession ⟨lit "<3", lit "<3", lit "> ", 2, -1⟩
        ⟨[[97, 3]], GoError.eof, [], []⟩ newSession).1.trace.getLast? =
      some (Event.write [97]) := by
  decide

/-- C14, amended: when the read of a pass of the session loop returns an error,
the loop returns at once with the world as the read left it and the session
state unchanged: nothing is written after the read, so no farewell; this holds
for the first pass of `interactiveSession` too.  The read returns an error when
a code point 3, 4 or 24 comes after input without terminator (`io.EOF`) and when
the channel ends or fails before a terminator (the channel's error). -/
theorem failed_read_returns (a : Assets) (v : World) (session : Session) (e : GoError)
    (herr : (readLineWithEcho (prompt a v)).err = some e) :
    (∀ fuel, sessionLoop a (fuel + 1) v session =
      ((readLineWithEcho (prompt a v)).world, session)) ∧
    (∀ w : World, greeting a w = v →
      interactiveSession a w session = ((readLineWithEcho (prompt a v)).world, session)) ∧
    (∀ (u : World) (p rest : List Nat) (c : Nat),
      (∀ r ∈ p, r ≠ 13 ∧ r ≠ 10 ∧ r ≠ 3 ∧ r ≠ 4 ∧ r ≠ 24) → (c = 3 ∨ c = 4 ∨ c = 24) →
      u.incoming.flatten = p ++ c :: rest →
      (readLineWithEcho (prompt a u)).err = some GoError.eof) ∧
    (∀ (u : World) (p : List Nat),
      (∀ r ∈ p, r ≠ 13 ∧ r ≠ 10 ∧ r ≠ 3 ∧ r ≠ 4 ∧ r ≠ 24) → u.incoming.flatten = p →
      (readLineWithEcho (prompt a u)).err = some u.closeErr) := by
  have hb := sessionBody_abort a v session e herr
  refine ⟨fun fuel => by simp only [sessionLoop, hb], ?_, ?_, ?_⟩
  · intro w hw
    unfold interactiveSession
    rw [hw]
    simp only [sessionLoop, hb]
  · intro u p rest c hp hc hin
    have h := readLineLoop_interrupt p ((prompt a u).incoming.flatten.length + 1)
      (p.length + 1) [] [] [] (prompt a u) { prompt a u with incoming := [p] } c rest hp hc
      (by rw [prompt_eq_log]; simpa using hin) (by simp) rfl
      (by rw [prompt_eq_log]; show p.length + 1 ≤ u.incoming.flatten.length + 1
          rw [hin]; simp) (le_refl _)
    exact h.2.1
  · intro u p hp hin
    have h := readLineLoop_exhausted p ((prompt a u).incoming.flatten.length + 1) [] []
      (prompt a u) hp (by rw [prompt_eq_log]; simpa using hin)
      (by rw [prompt_eq_log]; show p.length + 1 ≤ u.incoming.flatten.length + 1
          rw [hin])
    rw [prompt_eq_log] at h ⊢
    exact h.2

/-- C14 (amended) at `a`, Ctrl-C in one read. -/
theorem failed_read_returns_witness :
    ((readLineWithEcho
        (prompt ⟨lit "<3", lit "<3", lit "> ", 2, -1⟩
          (greeting ⟨lit "<3", lit "<3", lit "> ", 2, -1⟩
            ⟨[[97, 3]], GoError.eof, [], []⟩))).err = some GoError.eof) ∧
    interactiveSession ⟨lit "<3", lit "<3", lit "> ", 2, -1⟩
        ⟨[[97, 3]], GoError.eof, [], []⟩ newSession =
      ((readLineWithEcho
        (prompt ⟨lit "<3", lit "<3", lit "> ", 2, -1⟩
          (greeting ⟨lit "<3", lit "<3", lit "> ", 2, -1⟩
            ⟨[[97, 3]], GoError.eof, [], []⟩))).world, newSession) :=
  ⟨by decide,
    (failed_read_returns ⟨lit "<3", lit "<3", lit "> ", 2, -1⟩
      (greeting ⟨lit "<3", lit "<3", lit "> ", 2, -1⟩ ⟨[[97, 3]], GoError.eof, [], []⟩)
      newSession GoError.eof (by decide)).2.1 ⟨[[97, 3]], GoError.eof, [], []⟩ rfl⟩

/-- The read loop with a whole line in the reader's buffer: the line, the echo,
and the channel left alone. -/
theorem readLineLoop_buffered (s : List Nat) :
    ∀ (fuel : Nat) (buf : List Nat) (w : World) (junk : List Nat) (t : Nat),
      (∀ r ∈ s, 32 ≤ r ∧ r ≠ 127) → (t = 13 ∨ t = 10) → s.length + 1 ≤ fuel →
      readLineLoop fuel (s ++ t :: junk) buf w =
        ⟨stringOfRunes (buf ++ s), none, w.log (s.map (fun r => Event.write (encodeRune r)))⟩ := by
  induction s with
  | nil =>
    intro fuel buf w junk t _ ht hf
    obtain ⟨n, rfl⟩ : ∃ n, fuel = n + 1 := ⟨fuel - 1, by omega⟩
    have hbrk : ∀ w' : World, onRune t buf w' = Flow.brk buf w' := by
      intro w'; simp [onRune, ht]
    simp only [List.nil_append, readLineLoop, readRune, hbrk, List.append_nil, List.map_nil,
      log_nil]
  | cons x s ih =>
    intro fuel buf w junk t hs ht hf
    obtain ⟨n, rfl⟩ : ∃ n, fuel = n + 1 := ⟨fuel - 1, by simp at hf; omega⟩
    simp only [List.cons_append, readLineLoop, readRune, onRune_printable x buf _ (hs x (by simp))]
    rw [ih n (buf ++ [x]) _ junk t (fun r hr => hs r (by simp [hr])) ht (by simp at hf; omega)]
    simp [World.log, World.emit]

/-- A read whose line comes in one delivery: the line, the echo, and the channel
without that delivery; what followed the terminator in it is lost. -/
theorem readLineWithEcho_chunk (v : World) (s junk : List Nat) (t : Nat)
    (rest : List (List Nat)) (hs : ∀ r ∈ s, 32 ≤ r ∧ r ≠ 127) (ht : t = 13 ∨ t = 10)
    (hv : v.incoming = (s ++ t :: junk) :: rest) :
    readLineWithEcho v =
      ⟨stringOfRunes s, none,
        ⟨rest, v.closeErr, v.trace ++ s.map (fun r => Event.write (encodeRune r)), v.rand⟩⟩ := by
  have hfuel : s.length + 1 ≤ v.incoming.flatten.length + 1 := by
    rw [hv]; simp
  have hstep : readLineLoop (v.incoming.flatten.length + 1) [] [] v =
      readLineLoop (v.incoming.flatten.length + 1) (s ++ t :: junk) [] { v with incoming := rest } := by
    cases s with
    | nil => simp only [readLineLoop, readRune, hv, List.nil_append]
    | cons x s => simp only [readLineLoop, readRune, hv, List.cons_append]
  unfold readLineWithEcho
  rw [hstep, readLineLoop_buffered s _ [] _ junk t hs ht hfuel]
  rfl

/-- `rand.Intn` and writing do not interfere. -/
theorem intn_log (w : World) (evs : List Event) (n : Nat) :
    (w.log evs).intn n = ((w.intn n).1, (w.intn n).2.log evs) := by
  rcases w with ⟨inc, ce, tr, rnd⟩
  cases rnd <;> rfl

/-- What the branch of a rejected guess does: it clears two lines, draws, writes
the decoy at the chosen index and the reminder, and stores the index. -/
theorem rejectedGuess_eq (v : World) (s : Session) :
    rejectedGuess v s =
      ((v.intn 4).2.log
        [Event.write (lit "\x1b[2K\r"), Event.write (lit "\x1b[1B"),
          Event.write (lit "\x1b[2K\r"), Event.write (lit "\x1b[1A"),
          Event.write (texts.getD (pickDecoy (v.intn 4).1 s.LastSentIndex).toNat [] ++ lit "\r\n"),
          Event.write (lit "To give up, use \"quit\".\r\n")],
        ⟨pickDecoy (v.intn 4).1 s.LastSentIndex⟩) := by
  have h2 : (1 : Int) ≤ 2 := by decide
  have hup : relMoveEvents 0 (-(2 - 1)) = [Event.write (lit "\x1b[1A")] := by decide
  simp only [rejectedGuess, clearLinesRel_eq_log _ 2 h2, texts_length, intn_log, emit_eq_log,
    log_log, hup]
  rfl

/-- A pass of the session loop that ends in `break` is followed by the
farewell. -/
theorem sessionLoop_leave (a : Assets) (fuel : Nat) (v v2 : World) (s s2 : Session)
    (h : sessionBody a v s = SessionFlow.leave v2 s2) :
    sessionLoop a (fuel + 1) v s = (v2.emit (lit "\r\n\r\nSee you soon!\r\n"), s2) := by
  simp only [sessionLoop, h]

/-- A pass of the session loop that ends in `return` ends the session. -/
theorem sessionLoop_abort (a : Assets) (fuel : Nat) (v v2 : World) (s s2 : Session)
    (h : sessionBody a v s = SessionFlow.abort v2 s2) :
    sessionLoop a (fuel + 1) v s = (v2, s2) := by
  simp only [sessionLoop, h]

/-! ## Session: the decoy index stays in range -/

/-- The index `rejectedGuess` stores lies in `0..3`. -/
theorem rejectedGuess_range (w : World) (s : Session) :
    0 ≤ (rejectedGuess w s).2.LastSentIndex ∧ (rejectedGuess w s).2.LastSentIndex < 4 := by
  rw [rejectedGuess_index]
  exact pickDecoy_range _ _ (intn_lt _ _ (by decide))

/-- A pass of the session loop keeps `LastSentIndex` in `-1..3`. -/
theorem sessionBody_range (a : Assets) (w : World) (s : Session)
    (hs : -1 ≤ s.LastSentIndex ∧ s.LastSentIndex < 4) :
    match sessionBody a w s with
    | SessionFlow.again _ s' => -1 ≤ s'.LastSentIndex ∧ s'.LastSentIndex < 4
    | SessionFlow.leave _ s' => -1 ≤ s'.LastSentIndex ∧ s'.LastSentIndex < 4
    | SessionFlow.abort _ s' => -1 ≤ s'.LastSentIndex ∧ s'.LastSentIndex < 4 := by
  unfold sessionBody
  simp only
  generalize readLineWithEcho _ = res
  rcases res with ⟨line, _ | e, world⟩
  · simp only
    split_ifs
    · exact hs
    · exact hs
    · have := rejectedGuess_range (moveCursorAbs world 0 17) s
      exact ⟨by omega, this.2⟩
    · exact hs
  · exact hs

/-- The session loop keeps `LastSentIndex` in `-1..3`. -/
theorem sessionLoop_range (a : Assets) (fuel : Nat) :
    ∀ (w : World) (s : Session), -1 ≤ s.LastSentIndex ∧ s.LastSentIndex < 4 →
      -1 ≤ (sessionLoop a fuel w s).2.LastSentIndex ∧
        (sessionLoop a fuel w s).2.LastSentIndex < 4 := by
  induction fuel with
  | zero => intro w s hs; exact hs
  | succ n ih =>
    intro w s hs
    have hb := sessionBody_range a w s hs
    simp only [sessionLoop]
    rcases hbody : sessionBody a w s with ⟨w', s'⟩ | ⟨w', s'⟩ | ⟨w', s'⟩
    · rw [hbody] at hb
      exact ih w' s' hb
    · rw [hbody] at hb
      exact hb
    · rw [hbody] at hb
      exact hb

/-- C19: for a draw in `[0, 4)` and any `LastSentIndex` the index computed on a
rejected guess lies in `[0, 4)`; the index `rejectedGuess` uses and stores is
such an index, so `texts[idx]` is an entry of the pool; a session starts with
`LastSentIndex = -1`, every pass of the loop and the whole loop keep it in
`-1..3`, and so does every session run from the start state. -/
theorem lastSentIndex_in_range :
    (∀ (draw : Nat) (last : Int), draw < 4 →
      0 ≤ pickDecoy draw last ∧ pickDecoy draw last < 4) ∧
    (∀ (w : World) (s : Session),
      0 ≤ (rejectedGuess w s).2.LastSentIndex ∧ (rejectedGuess w s).2.LastSentIndex < 4 ∧
      ∃ t, texts[(rejectedGuess w s).2.LastSentIndex.toNat]? = some t) ∧
    newSession.LastSentIndex = -1 ∧
    (∀ (a : Assets) (w : World) (s : Session),
      (-1 ≤ s.LastSentIndex ∧ s.LastSentIndex < 4) →
      match sessionBody a w s with
      | SessionFlow.again _ s' => -1 ≤ s'.LastSentIndex ∧ s'.LastSentIndex < 4
      | SessionFlow.leave _ s' => -1 ≤ s'.LastSentIndex ∧ s'.LastSentIndex < 4
      | SessionFlow.abort _ s' => -1 ≤ s'.LastSentIndex ∧ s'.LastSentIndex < 4) ∧
    (∀ (a : Assets) (fuel : Nat) (w : World) (s : Session),
      (-1 ≤ s.LastSentIndex ∧ s.LastSentIndex < 4) →
      -1 ≤ (sessionLoop a fuel w s).2.LastSentIndex ∧
        (sessionLoop a fuel w s).2.LastSentIndex < 4) ∧
    (∀ (a : Assets) (w : World),
      -1 ≤ (interactiveSession a w newSession).2.LastSentIndex ∧
        (interactiveSession a w newSession).2.LastSentIndex < 4) := by
  refine ⟨fun draw last hd => pickDecoy_range draw last hd, ?_, rfl, sessionBody_range,
    fun a fuel w s hs => sessionLoop_range a fuel w s hs,
    fun a w => sessionLoop_range a _ _ newSession (by decide)⟩
  intro w s
  have hr := rejectedGuess_range w s
  refine ⟨hr.1, hr.2, ?_⟩
  have hlt : (rejectedGuess w s).2.LastSentIndex.toNat < texts.length := by
    rw [texts_length]; omega
  exact ⟨texts[(rejectedGuess w s).2.LastSentIndex.toNat], List.getElem?_eq_getElem hlt⟩

/-! ## Session: a wrong guess, then the secret token -/

/-- `rand.Intn` in terms of what the random source holds. -/
theorem intn_eq (w : World) (n : Nat) :
    w.intn n = (drawOf w.rand n, { w with rand := w.rand.tail }) := by
  rcases w with ⟨inc, ce, tr, rnd⟩
  cases rnd <;> rfl

/-- Writing on top of writing. -/
theorem extends_trans {w0 w1 w2 : World} (h1 : ∃ e, w1.trace = w0.trace ++ e)
    (h2 : ∃ e, w2.trace = w1.trace ++ e) : ∃ e, w2.trace = w0.trace ++ e := by
  obtain ⟨e1, h1⟩ := h1
  obtain ⟨e2, h2⟩ := h2
  exact ⟨e1 ++ e2, by rw [h2, h1, List.append_assoc]⟩

/-- `rand.Intn` leaves the trace alone. -/
theorem intn_trace (w : World) (n : Nat) : (w.intn n).2.trace = w.trace := by
  rw [intn_eq]

/-- A pass of the typewriter loop only adds to the trace. -/
theorem typewriterStep_extends (len : Nat) (delay : Int) (w : World) (p : Nat × Nat) :
    ∃ e, (typewriterStep len delay w p).trace = w.trace ++ e := by
  unfold typewriterStep
  simp only
  split_ifs <;>
    exact ⟨_, by simp only [World.emit, World.pause, intn_trace, List.append_assoc]; rfl⟩

/-- `typewriterEffect` only adds to the trace. -/
theorem typewriterEffect_extends (w : World) (text : List Nat) (delay : Int) :
    ∃ e, (typewriterEffect w text delay).trace = w.trace ++ e := by
  unfold typewriterEffect
  generalize rangeString text = l
  induction l generalizing w with
  | nil => exact ⟨[], by simp⟩
  | cons p l ih =>
    rw [List.foldl_cons]
    exact extends_trans (typewriterStep_extends _ _ w p) (ih _)

/-- `printTypedLine` only adds to the trace. -/
theorem printTypedLine_extends (w : World) (text : List Nat) (d x : Int) :
    ∃ e, (printTypedLine w text d x).trace = w.trace ++ e := by
  unfold printTypedLine
  simp only
  split_ifs
  · exact extends_trans (typewriterEffect_extends w _ _) ⟨_, rfl⟩
  · exact typewriterEffect_extends w _ _

/-- `animateHearts` only adds to the trace. -/
theorem animateHearts_extends (template : List Nat) (w : World) (x y : Int) :
    ∃ e, (animateHearts template w x y).trace = w.trace ++ e :=
  ⟨_, by rw [animateHearts_trace]; simp only [List.append_assoc]; rfl⟩

/-- `printNewLines` only adds to the trace. -/
theorem printNewLines_extends (w : World) (n : Nat) :
    ∃ e, (printNewLines w n).trace = w.trace ++ e := ⟨_, rfl⟩

/-- `time.Sleep` only adds to the trace. -/
theorem pause_extends (w : World) (ns : Int) : ∃ e, (w.pause ns).trace = w.trace ++ e :=
  ⟨_, rfl⟩

/-- The success script only adds to the trace: what was written before it
stays before it. -/
theorem successScript_extends (a : Assets) (w : World) :
    ∃ e, (successScript a w).trace = w.trace ++ e := by
  unfold successScript
  simp only
  refine extends_trans ?_ (typewriterEffect_extends _ _ _)
  refine extends_trans ?_ (printTypedLine_extends _ _ _ _)
  refine extends_trans ?_ (printNewLines_extends _ _)
  refine extends_trans ?_ (printTypedLine_extends _ _ _ _)
  refine extends_trans ?_ (printTypedLine_extends _ _ _ _)
  refine extends_trans ?_ (printNewLines_extends _ _)
  refine extends_trans ?_ (printTypedLine_extends _ _ _ _)
  refine extends_trans ?_ (printTypedLine_extends _ _ _ _)
  refine extends_trans ?_ (printNewLines_extends _ _)
  refine extends_trans ?_ (printTypedLine_extends _ _ _ _)
  refine extends_trans ?_ (printTypedLine_extends _ _ _ _)
  refine extends_trans ?_ (printTypedLine_extends _ _ _ _)
  refine extends_trans ?_ (printNewLines_extends _ _)
  refine extends_trans ?_ (printTypedLine_extends _ _ _ _)
  refine extends_trans ?_ (printTypedLine_extends _ _ _ _)
  refine extends_trans ?_ (printNewLines_extends _ _)
  refine extends_trans ?_ (animateHearts_extends _ _ _ _)
  refine extends_trans ?_ (pause_extends _ _)
  refine extends_trans ?_ (typewriterEffect_extends _ _ _)
  refine extends_trans ?_ (pause_extends _ _)
  refine extends_trans ?_ (typewriterEffect_extends _ _ _)
  refine extends_trans ?_ (pause_extends _ _)
  refine extends_trans ?_ (typewriterEffect_extends _ _ _)
  refine extends_trans ?_ (printNewLines_extends _ _)
  exact ⟨[Event.write (lit "\x1b[2J\x1b[H")], rfl⟩

/-- A read from a channel that has nothing more to deliver fails with the
channel's error and writes nothing. -/
theorem readLineWithEcho_closed (v : World) (hv : v.incoming = []) :
    readLineWithEcho v = ⟨[], some v.closeErr, v⟩ := by
  rcases v with ⟨inc, ce, tr, rnd⟩
  simp only at hv
  subst hv
  rfl

/-- The pass of the session loop on the wrong guess `wrongguess` delivered in one
read, with whatever follows it in that read. -/
theorem sessionBody_wrongguess (a : Assets) (junk : List Nat) (rest : List (List Nat))
    (e : GoError) (tr : List Event) (rnd : List Nat) (s : Session) :
    sessionBody a ⟨(lit "wrongguess" ++ 10 :: junk) :: rest, e, tr, rnd⟩ s =
      SessionFlow.again
        ⟨rest, e,
          tr ++ promptEvents a ++
            (lit "wrongguess").map (fun r => Event.write (encodeRune r)) ++
            decoyEvents (pickDecoy (drawOf rnd 4) s.LastSentIndex),
          rnd.tail⟩
        ⟨pickDecoy (drawOf rnd 4) s.LastSentIndex⟩ := by
  have hread := readLineWithEcho_chunk
    (prompt a ⟨(lit "wrongguess" ++ 10 :: junk) :: rest, e, tr, rnd⟩)
    (lit "wrongguess") junk 10 rest (by decide) (Or.inr rfl) (by rw [prompt_eq_log]; rfl)
  have ht : TrimSpace (stringOfRunes (lit "wrongguess")) = lit "wrongguess" := by decide
  have hb := sessionBody_rejected a ⟨(lit "wrongguess" ++ 10 :: junk) :: rest, e, tr, rnd⟩ s
    (by rw [hread]) (by rw [hread]; simp only [ht]; decide) (by rw [hread]; simp only [ht]; decide)
    (by rw [hread]; simp only [ht]; decide) (by rw [hread]; simp only [ht]; decide)
  rw [hb, hread, rejectedGuess_eq]
  simp only [intn_eq, prompt_eq_log, World.log, decoyEvents, List.append_assoc,
    List.cons_append, List.nil_append]

/-- The pass of the session loop on the secret token delivered in one read. -/
theorem sessionBody_secret (a : Assets) (junk : List Nat) (rest : List (List Nat))
    (e : GoError) (tr : List Event) (rnd : List Nat) (s : Session) :
    sessionBody a ⟨(lit "<33" ++ 10 :: junk) :: rest, e, tr, rnd⟩ s =
      SessionFlow.leave
        (successScript a
          ⟨rest, e,
            tr ++ promptEvents a ++ (lit "<33").map (fun r => Event.write (encodeRune r)) ++
              [Event.write (lit "\x1b[18;1H")],
            rnd⟩) s := by
  have hread := readLineWithEcho_chunk
    (prompt a ⟨(lit "<33" ++ 10 :: junk) :: rest, e, tr, rnd⟩)
    (lit "<33") junk 10 rest (by decide) (Or.inr rfl) (by rw [prompt_eq_log]; rfl)
  have ht : TrimSpace (stringOfRunes (lit "<33")) = lit "<33" := by decide
  have hb := sessionBody_success a ⟨(lit "<33" ++ 10 :: junk) :: rest, e, tr, rnd⟩ s
    (by rw [hread]) (by rw [hread]; exact ht)
  rw [hb, hread]
  simp only [prompt_eq_log, World.log, List.append_assoc]

/-- The pass of the session loop on a channel that has nothing more to
deliver. -/
theorem sessionBody_closed (a : Assets) (e : GoError) (tr : List Event) (rnd : List Nat)
    (s : Session) :
    sessionBody a ⟨[], e, tr, rnd⟩ s = SessionFlow.abort ⟨[], e, tr ++ promptEvents a, rnd⟩ s := by
  have hread := readLineWithEcho_closed (prompt a ⟨[], e, tr, rnd⟩) (by rw [prompt_eq_log]; rfl)
  rw [sessionBody_abort a _ s (prompt a ⟨[], e, tr, rnd⟩).closeErr (by rw [hread]), hread,
    prompt_eq_log]
  rfl

/-- C13 (the code at the failing input, and where it agrees with the claim):
when `"wrongguess\n<33\n"` arrives in one read, the first `readLineWithEcho`
returns `wrongguess` and its `bufio.Reader` is dropped with `<33\n` still in it;
the session writes one decoy, prompts again, finds the channel exhausted and
returns: no success script, no farewell.  When the two lines arrive in two reads
the session writes one decoy (at the index chosen for the draw), prompts again,
reads `<33`, runs the success script once on top of what was written, and ends
with the farewell. -/
theorem wrongguess_then_secret :
    (∀ (a : Assets) (e : GoError) (tr : List Event) (rnd : List Nat) (s : Session),
      interactiveSession a ⟨[lit "wrongguess" ++ 10 :: (lit "<33" ++ [10])], e, tr, rnd⟩ s =
        (⟨[], e,
          tr ++ greetingEvents a ++ promptEvents a ++
            (lit "wrongguess").map (fun r => Event.write (encodeRune r)) ++
            decoyEvents (pickDecoy (drawOf rnd 4) s.LastSentIndex) ++ promptEvents a,
          rnd.tail⟩,
          ⟨pickDecoy (drawOf rnd 4) s.LastSentIndex⟩)) ∧
    (∀ (a : Assets) (e : GoError) (tr : List Event) (rnd : List Nat) (s : Session),
      interactiveSession a ⟨[lit "wrongguess" ++ [10], lit "<33" ++ [10]], e, tr, rnd⟩ s =
        ((successScript a
            ⟨[], e,
              tr ++ greetingEvents a ++ promptEvents a ++
                (lit "wrongguess").map (fun r => Event.write (encodeRune r)) ++
                decoyEvents (pickDecoy (drawOf rnd 4) s.LastSentIndex) ++ promptEvents a ++
                (lit "<33").map (fun r => Event.write (encodeRune r)) ++
                [Event.write (lit "\x1b[18;1H")],
              rnd.tail⟩).emit (lit "\r\n\r\nSee you soon!\r\n"),
          ⟨pickDecoy (drawOf rnd 4) s.LastSentIndex⟩)) ∧
    (∀ (a : Assets) (w : World), ∃ evs, (successScript a w).trace = w.trace ++ evs) ∧
    (∀ (draw : Nat) (last : Int), draw < 4 →
      ∃ t ∈ texts, texts.getD (pickDecoy draw last).toNat [] = t) := by
  refine ⟨?_, ?_, successScript_extends, ?_⟩
  · intro a e tr rnd s
    have hN : (World.mk [lit "wrongguess" ++ 10 :: (lit "<33" ++ [10])] e tr
        rnd).incoming.flatten.length = 14 + 1 := by
      show ([lit "wrongguess" ++ 10 :: (lit "<33" ++ [10])] : List (List Nat)).flatten.length = 14 + 1
      decide
    rw [interactiveSession_first_pass, hN]
    have h1 := sessionBody_wrongguess a (lit "<33" ++ [10]) [] e (tr ++ greetingEvents a) rnd s
    have h1' : sessionBody a
        ((World.mk [lit "wrongguess" ++ 10 :: (lit "<33" ++ [10])] e tr rnd).log
          (greetingEvents a)) s = _ := h1
    rw [h1']
    simp only
    rw [sessionLoop_abort a 14 _ _ _ _ (sessionBody_closed a e _ _ _)]
  · intro a e tr rnd s
    have hN : (World.mk [lit "wrongguess" ++ [10], lit "<33" ++ [10]] e tr
        rnd).incoming.flatten.length = 14 + 1 := by
      show ([lit "wrongguess" ++ [10], lit "<33" ++ [10]] : List (List Nat)).flatten.length = 14 + 1
      decide
    rw [interactiveSession_first_pass, hN]
    have h1 := sessionBody_wrongguess a [] [lit "<33" ++ [10]] e (tr ++ greetingEvents a) rnd s
    have h1' : sessionBody a
        ((World.mk [lit "wrongguess" ++ [10], lit "<33" ++ [10]] e tr rnd).log
          (greetingEvents a)) s = _ := h1
    rw [h1']
    simp only
    rw [sessionLoop_leave a 14 _ _ _ _ (sessionBody_secret a [] [] e _ _ _)]
  · intro draw last hd
    have hr := pickDecoy_range draw last hd
    have hlt : (pickDecoy draw last).toNat < texts.length := by rw [texts_length]; omega
    refine ⟨texts[(pickDecoy draw last).toNat], List.getElem_mem hlt, ?_⟩
    simp [List.getD_eq_getElem?_getD, List.getElem?_eq_getElem hlt]

/-! ## Line editor: the echo mirrors the buffer -/

/-- Replaying nothing leaves the stack. -/
theorem replayFrom_nil (fuel : Nat) (st : List Nat) : replayFrom fuel [] st = some st := by
  cases fuel <;> simp [replayFrom]

/-- Replaying an erase sequence pops. -/
theorem replayFrom_erase (fuel : Nat) (more st : List Nat) (hst : st ≠ []) :
    replayFrom (fuel + 1) ([8, 32, 8] ++ more) st = replayFrom fuel more st.dropLast := by
  simp [replayFrom, hst]

/-- The encoding of a printable rune starts with a byte that is not a
backspace. -/
theorem encodeRune_head (x : Nat) (hx : 32 ≤ x) :
    ∃ b bs, encodeRune x = b :: bs ∧ b ≠ 8 := by
  unfold encodeRune
  split_ifs
  · exact ⟨x, [], rfl, by omega⟩
  · exact ⟨_, _, rfl, by omega⟩
  · exact ⟨_, _, rfl, by decide⟩
  · exact ⟨_, _, rfl, by omega⟩
  · exact ⟨_, _, rfl, by omega⟩

/-- Replaying the echo of a printable rune pushes the rune. -/
theorem replayFrom_echo (fuel x : Nat) (more st : List Nat) (hx : 32 ≤ x) :
    replayFrom (fuel + 1) (encodeRune x ++ more) st = replayFrom fuel more (st ++ [fixRune x]) := by
  obtain ⟨b, bs, hb, hne⟩ := encodeRune_head x hx
  have hd := decodeRune_encode x more
  have hdrop : (encodeRune x ++ more).drop (encodeRune x).length = more := List.drop_left _ _
  rw [hb] at hd hdrop ⊢
  have htake : ¬ ((b :: bs ++ more).take 3 = [8, 32, 8]) := by
    intro h
    simp only [List.cons_append, List.take_succ_cons, List.cons.injEq] at h
    exact hne h.1
  simp only [List.cons_append] at hd hdrop htake ⊢
  rw [replayFrom, if_neg htake, hd]
  simp only [hdrop]

/-- The read loop on input without interrupt code up to its first terminator:
what it writes, replayed on the stack of the line so far, gives the stack of the
line returned; every event written holds at least one byte. -/
theorem readLineLoop_replay (p : List Nat) :
    ∀ (fuel : Nat) (buffered buf : List Nat) (w : World) (t : Nat) (rest : List Nat),
      (∀ r ∈ p, r ≠ 13 ∧ r ≠ 10 ∧ r ≠ 3 ∧ r ≠ 4 ∧ r ≠ 24) → (t = 13 ∨ t = 10) →
      buffered ++ w.incoming.flatten = p ++ t :: rest → p.length + 1 ≤ fuel →
      ∃ evs bufEnd,
        (readLineLoop fuel buffered buf w).world.trace = w.trace ++ evs ∧
        (readLineLoop fuel buffered buf w).err = none ∧
        (readLineLoop fuel buffered buf w).line = stringOfRunes bufEnd ∧
        evs.length ≤ (writtenBytes evs).length ∧
        ∀ F, evs.length ≤ F →
          replayFrom F (writtenBytes evs) (buf.map fixRune) = some (bufEnd.map fixRune) := by
  induction p with
  | nil =>
    intro fuel buffered buf w t rest _ ht hin hf
    obtain ⟨n, rfl⟩ : ∃ n, fuel = n + 1 := ⟨fuel - 1, by omega⟩
    obtain ⟨b, c, _, heq⟩ := readLineLoop_step n buffered buf w t rest (by simpa using hin)
    have hbrk : ∀ w' : World, onRune t buf w' = Flow.brk buf w' := by
      intro w'; simp [onRune, ht]
    rw [heq, hbrk]
    exact ⟨[], buf, by simp, rfl, rfl, le_refl _, fun F _ => replayFrom_nil F _⟩
  | cons x p ih =>
    intro fuel buffered buf w t rest hp ht hin hf
    obtain ⟨n, rfl⟩ : ∃ n, fuel = n + 1 := ⟨fuel - 1, by simp at hf; omega⟩
    obtain ⟨b, c, hbc, heq⟩ :=
      readLineLoop_step n buffered buf w x (p ++ t :: rest) (by simpa using hin)
    obtain ⟨h1, h2, h3, h4, h5⟩ := hp x (by simp)
    have hp' : ∀ r ∈ p, r ≠ 13 ∧ r ≠ 10 ∧ r ≠ 3 ∧ r ≠ 4 ∧ r ≠ 24 :=
      fun r hr => hp r (by simp [hr])
    have hn : p.length + 1 ≤ n := by simp at hf; omega
    rw [heq]
    by_cases hd : x = 127
    · by_cases hb : buf.length > 0
      · have hon : onRune x buf { w with incoming := c } =
            Flow.next buf.dropLast (World.emit { w with incoming := c } [8, 32, 8]) := by
          simp [onRune, hd, hb]
        rw [hon]
        obtain ⟨evs, bufEnd, e1, e2, e3, e4, e5⟩ :=
          ih n b buf.dropLast (World.emit { w with incoming := c } [8, 32, 8]) t rest hp' ht
            (by simpa [World.emit] using hbc) hn
        refine ⟨Event.write [8, 32, 8] :: evs, bufEnd, ?_, e2, e3, ?_, ?_⟩
        · simpa [World.emit] using e1
        · simp only [writtenBytes, List.length_cons, List.length_append]; omega
        · intro F hF
          obtain ⟨F', rfl⟩ : ∃ F', F = F' + 1 := ⟨F - 1, by simp at hF; omega⟩
          have hne : buf.map fixRune ≠ [] := by
            intro h
            rw [List.map_eq_nil_iff] at h
            rw [h] at hb
            simp at hb
          show replayFrom (F' + 1) ([8, 32, 8] ++ writtenBytes evs) (buf.map fixRune) = _
          rw [replayFrom_erase F' _ _ hne, ← List.map_dropLast]
          exact e5 F' (by simp at hF; omega)
      · have hon : onRune x buf { w with incoming := c } =
            Flow.next buf { w with incoming := c } := by
          simp [onRune, hd, hb]
        rw [hon]
        obtain ⟨evs, bufEnd, e1, e2, e3, e4, e5⟩ :=
          ih n b buf { w with incoming := c } t rest hp' ht (by simpa using hbc) hn
        exact ⟨evs, bufEnd, e1, e2, e3, e4, e5⟩
    · by_cases hpr : x ≥ 32
      · rw [onRune_printable x buf _ ⟨hpr, hd⟩]
        obtain ⟨evs, bufEnd, e1, e2, e3, e4, e5⟩ :=
          ih n b (buf ++ [x]) (World.emit { w with incoming := c } (encodeRune x)) t rest hp' ht
            (by simpa [World.emit] using hbc) hn
        refine ⟨Event.write (encodeRune x) :: evs, bufEnd, ?_, e2, e3, ?_, ?_⟩
        · simpa [World.emit] using e1
        · have := encodeRune_length_pos x
          simp only [writtenBytes, List.length_cons, List.length_append]; omega
        · intro F hF
          obtain ⟨F', rfl⟩ : ∃ F', F = F' + 1 := ⟨F - 1, by simp at hF; omega⟩
          show replayFrom (F' + 1) (encodeRune x ++ writtenBytes evs) (buf.map fixRune) = _
          rw [replayFrom_echo F' x _ _ hpr]
          have := e5 F' (by simp at hF; omega)
          simpa using this
      · have hon : onRune x buf { w with incoming := c } =
            Flow.next buf { w with incoming := c } := by
          simp [onRune, h1, h2, h3, h4, h5, hd, hpr]
        rw [hon]
        obtain ⟨evs, bufEnd, e1, e2, e3, e4, e5⟩ :=
          ih n b buf { w with incoming := c } t rest hp' ht (by simpa using hbc) hn
        exact ⟨evs, bufEnd, e1, e2, e3, e4, e5⟩

/-- C20: for input without interrupt code up to its first CR or LF, however the
channel delivers it, `readLineWithEcho` returns a line with a nil error, and
replaying the bytes it wrote on an initially empty stack (an echoed code point
pushes itself, backspace-space-backspace pops) never pops an empty stack and
ends with exactly the code points of the returned line. -/
theorem echo_mirrors_line (w : World) (p rest : List Nat) (t : Nat)
    (hp : ∀ r ∈ p, r ≠ 13 ∧ r ≠ 10 ∧ r ≠ 3 ∧ r ≠ 4 ∧ r ≠ 24) (ht : t = 13 ∨ t = 10)
    (hin : w.incoming.flatten = p ++ t :: rest) :
    ∃ evs, (readLineWithEcho w).world.trace = w.trace ++ evs ∧
      (readLineWithEcho w).err = none ∧
      replay (writtenBytes evs) = some (runesOf (readLineWithEcho w).line) := by
  obtain ⟨evs, bufEnd, e1, e2, e3, e4, e5⟩ :=
    readLineLoop_replay p (w.incoming.flatten.length + 1) [] [] w t rest hp ht
      (by simpa using hin) (by rw [hin]; simp)
  refine ⟨evs, e1, e2, ?_⟩
  have hl : (readLineWithEcho w).line = stringOfRunes bufEnd := e3
  rw [hl, runesOf_stringOfRunes]
  exact e5 _ e4

/-- C20 at `a`, `b`, DEL, DEL, DEL, `c`, a blue heart, DEL, `d`, CR. -/
theorem echo_mirrors_line_witness :
    ((∀ r ∈ [97, 98, 127, 127, 127, 99, 128153, 127, 100],
        r ≠ 13 ∧ r ≠ 10 ∧ r ≠ 3 ∧ r ≠ 4 ∧ r ≠ 24) ∧
      ((13 : Nat) = 13 ∨ (13 : Nat) = 10) ∧
      (World.mk [[97, 98, 127], [127, 127, 99, 128153, 127, 100, 13]] GoError.eof [] []
        ).incoming.flatten = [97, 98, 127, 127, 127, 99, 128153, 127, 100] ++ 13 :: []) ∧
    (∃ evs,
      (readLineWithEcho
        ⟨[[97, 98, 127], [127, 127, 99, 128153, 127, 100, 13]], GoError.eof, [], []⟩).world.trace
        = [] ++ evs ∧
      (readLineWithEcho
        ⟨[[97, 98, 127], [127, 127, 99, 128153, 127, 100, 13]], GoError.eof, [], []⟩).err = none ∧
      replay (writtenBytes evs) =
        some (runesOf (readLineWithEcho
          ⟨[[97, 98, 127], [127, 127, 99, 128153, 127, 100, 13]], GoError.eof, [], []⟩).line)) ∧
    runesOf (readLineWithEcho
      ⟨[[97, 98, 127], [127, 127, 99, 128153, 127, 100, 13]], GoError.eof, [], []⟩).line
      = [99, 100] :=
  ⟨⟨by decide, by decide, by decide⟩,
    echo_mirrors_line ⟨[[97, 98, 127], [127, 127, 99, 128153, 127, 100, 13]], GoError.eof, [], []⟩
      [97, 98, 127, 127, 127, 99, 128153, 127, 100] [] 13 (by decide) (by decide) (by decide),
    by decide⟩

/-! ## Canvas: clearing lines and the cursor row -/

/-- The digits `decimalAux` puts in front of `acc` read as the number. -/
theorem decimalAux_value (fuel : Nat) :
    ∀ (n : Nat) (acc : List Nat), n < fuel →
      (decimalAux fuel n acc).foldl (fun a d => a * 10 + (d - 48)) 0 =
        acc.foldl (fun a d => a * 10 + (d - 48)) n := by
  induction fuel with
  | zero => intro n acc h; omega
  | succ f ih =>
    intro n acc h
    unfold decimalAux
    split_ifs with hlt
    · simp
    · rw [ih (n / 10) _ (by omega)]
      simp only [List.foldl_cons]
      congr 1
      omega

/-- `%d` of a natural number reads back as the number. -/
theorem digitsValue_fmtInt (k : Nat) : digitsValue (fmtInt (k : Int)) = k := by
  show digitsValue (decimalAux (k + 1) k []) = k
  unfold digitsValue
  rw [decimalAux_value (k + 1) k [] (by omega)]
  rfl

/-- The cursor row after two runs of events. -/
theorem cursorRow_append (xs ys : List Event) :
    ∀ row : Int, cursorRow row (xs ++ ys) = cursorRow (cursorRow row xs) ys := by
  induction xs with
  | nil => intro row; rfl
  | cons e xs ih => intro row; cases e <;> simp [cursorRow, ih]

/-- A move up by `k` rows, as `moveCursorRel` writes it, is read as such. -/
theorem rowMove_up (k : Nat) : rowMove (lit "\x1b[" ++ fmtInt (k : Int) ++ lit "A") = -(k : Int) := by
  have h1 : lit "\x1b[" = [27, 91] := by decide
  have h2 : lit "A" = [65] := by decide
  rw [h1, h2]
  simp only [List.cons_append, List.nil_append, rowMove, List.getLast?_append,
    List.getLast?_singleton, List.dropLast_concat, digitsValue_fmtInt]
  rfl

/-- Clearing a line and moving down by one, `m` times over, ends `m` rows
down. -/
theorem cursorRow_clear_down (m : Nat) :
    ∀ row : Int,
      cursorRow row (List.replicate m
        [Event.write (lit "\x1b[2K\r"), Event.write (lit "\x1b[1B")]).flatten = row + m := by
  induction m with
  | zero => intro row; simp [cursorRow]
  | succ m ih =>
    intro row
    have h1 : rowMove (lit "\x1b[2K\r") = 0 := by decide
    have h2 : rowMove (lit "\x1b[1B") = 1 := by decide
    rw [List.replicate_succ, List.flatten_cons, cursorRow_append]
    simp only [cursorRow, h1, h2, ih]
    push_cast
    omega

/-- C15: for every `n ≥ 1`, `clearLinesRel(ch, n)` writes `n` clear-line
sequences (ESC `[2K` CR) with one move down by 1 (ESC `[1B`, what
`moveCursorRel(ch, 0, 1)` writes) between two of them, then what
`moveCursorRel(ch, 0, -(n-1))` writes: nothing for `n = 1`, one move up by
`n - 1` (ESC `[`, `n - 1` in decimal, `A`) for `n > 1`.  The `n - 1` rows moved
down are the `n - 1` rows moved up, so a terminal that reads these moves ends on
the row it started from; nothing else of the world changes. -/
theorem clearLinesRel_writes (w : World) (n : Int) (hn : 1 ≤ n) :
    clearLinesRel w n =
      { w with trace := w.trace ++
          ((List.replicate (n.toNat - 1)
              [Event.write (lit "\x1b[2K\r"), Event.write (lit "\x1b[1B")]).flatten ++
            [Event.write (lit "\x1b[2K\r")] ++
            (if n = 1 then [] else [Event.write (lit "\x1b[" ++ fmtInt (n - 1) ++ lit "A")])) } ∧
    (moveCursorRel w 0 1).trace = w.trace ++ [Event.write (lit "\x1b[1B")] ∧
    (moveCursorRel w 0 (-(n - 1))).trace =
      w.trace ++ (if n = 1 then [] else [Event.write (lit "\x1b[" ++ fmtInt (n - 1) ++ lit "A")]) ∧
    ((n.toNat - 1 : Nat) : Int) * 1 + (-(n - 1)) = 0 ∧
    (∀ row : Int,
      cursorRow row
        ((List.replicate (n.toNat - 1)
            [Event.write (lit "\x1b[2K\r"), Event.write (lit "\x1b[1B")]).flatten ++
          [Event.write (lit "\x1b[2K\r")] ++
          (if n = 1 then [] else [Event.write (lit "\x1b[" ++ fmtInt (n - 1) ++ lit "A")])) =
        row) := by
  have hup : relMoveEvents 0 (-(n - 1)) =
      (if n = 1 then [] else [Event.write (lit "\x1b[" ++ fmtInt (n - 1) ++ lit "A")]) := by
    unfold relMoveEvents
    by_cases h1 : n = 1
    · subst h1; decide
    · have a1 : ¬ (-(n - 1) > 0) := by omega
      have a2 : -(n - 1) < 0 := by omega
      simp only [a1, a2, h1, if_true, if_false, lt_self_iff_false, neg_neg, List.append_nil,
        gt_iff_lt]
  refine ⟨?_, ?_, ?_, by omega, ?_⟩
  · rw [clearLinesRel_eq_log w n hn, hup]
    rfl
  · rw [moveCursorRel_eq_log]
    have h1 : relMoveEvents 0 1 = [Event.write (lit "\x1b[1B")] := by decide
    rw [h1]; rfl
  · rw [moveCursorRel_eq_log, hup]; rfl
  · intro row
    have hc : rowMove (lit "\x1b[2K\r") = 0 := by decide
    rw [cursorRow_append, cursorRow_append, cursorRow_clear_down]
    simp only [cursorRow, hc, add_zero]
    by_cases h1 : n = 1
    · subst h1
      simp [cursorRow]
    · have hk : n - 1 = ((n.toNat - 1 : Nat) : Int) := by omega
      simp only [h1, if_false, cursorRow]
      rw [hk, rowMove_up]
      omega

/-- C15 at `n = 3` (two moves down, one move up by 2) and at `n = 1` (one
clear-line sequence, no move). -/
theorem clearLinesRel_writes_witness :
    ((1 : Int) ≤ 3) ∧
    (clearLinesRel ⟨[], GoError.eof, [], []⟩ 3).trace =
      [Event.write [27, 91, 50, 75, 13], Event.write [27, 91, 49, 66],
        Event.write [27, 91, 50, 75, 13], Event.write [27, 91, 49, 66],
        Event.write [27, 91, 50, 75, 13], Event.write [27, 91, 50, 65]] ∧
    (clearLinesRel ⟨[], GoError.eof, [], []⟩ 1).trace = [Event.write [27, 91, 50, 75, 13]] ∧
    cursorRow 5 (clearLinesRel ⟨[], GoError.eof, [], []⟩ 3).trace = 5 :=
  ⟨by decide,
    by
      rw [(clearLinesRel_writes ⟨[], GoError.eof, [], []⟩ 3 (by decide)).1]
      decide,
    by decide, by decide⟩

end Valentine
